import Mathlib

/-!
# LlamaMux: message enrichment, upstream chat client and stream transcoding

A shallow embedding of the translation pipeline of the gateway
(`internal/api/handlers.go`, `internal/ollama/client.go`) together with the
properties established about it.

Conventions of the embedding.

* A Go `interface{}` holding a decoded JSON document is a value of `JSON`; a Go
  `map[string]interface{}` is an association list looked up by key.
* A Go `error` is represented by its message; a `(string, error)` result is a
  pair of the string and an optional message.
* Strings decoded from JSON are valid UTF-8, so Go's byte-wise comparisons with
  the ASCII literals used here coincide with comparisons on characters.
* The collaborators reached over the network (the OCR service, remote image
  fetches, the chat backend) and the standard-library JSON codec are
  parameters of the functions that use them.
-/

namespace LlamaMux

/-! ## Decoded JSON values -/

/-- A value held in an `interface{}`: a JSON document as `encoding/json` decodes
it, or a value a handler builds for encoding. Decoded numbers are kept by their
float64 bit pattern and no function below inspects them; `int` is a Go integer
placed by a handler. -/
inductive JSON where
  | null : JSON
  | bool (b : Bool) : JSON
  | number (bits : Nat) : JSON
  | int (n : Int) : JSON
  | str (s : String) : JSON
  | arr (items : List JSON) : JSON
  | obj (fields : List (String × JSON)) : JSON

/-- A Go `map[string]interface{}`. -/
abbrev JMap := List (String × JSON)

/-- Map indexing `m[key]`: the value and whether the key is present. -/
def JMap.get (m : JMap) (key : String) : Option JSON :=
  match m with
  | [] => none
  | (k, v) :: rest => if k = key then some v else JMap.get rest key

/-- The type assertion `m[key].(string)`: the string, when the key is present
and holds a string. -/
def JMap.getString (m : JMap) (key : String) : Option String :=
  match m.get key with
  | some (JSON.str s) => some s
  | _ => none

/-- The type assertion `m[key].(map[string]interface{})`. -/
def JMap.getMap (m : JMap) (key : String) : Option JMap :=
  match m.get key with
  | some (JSON.obj o) => some o
  | _ => none

/-- The type assertion `m[key].(bool)`. -/
def JMap.getBool (m : JMap) (key : String) : Option Bool :=
  match m.get key with
  | some (JSON.bool b) => some b
  | _ => none

/-- The type assertion `m[key].([]interface{})`. -/
def JMap.getList (m : JMap) (key : String) : Option (List JSON) :=
  match m.get key with
  | some (JSON.arr xs) => some xs
  | _ => none

/-! ## String helpers of the Go standard library -/

/-- Unicode white space as `unicode.IsSpace` defines it. -/
def isSpace (c : Char) : Bool :=
  let n := c.toNat
  n = 0x09 || n = 0x0A || n = 0x0B || n = 0x0C || n = 0x0D || n = 0x20 ||
  n = 0x85 || n = 0xA0 || n = 0x1680 || (0x2000 ≤ n && n ≤ 0x200A) ||
  n = 0x2028 || n = 0x2029 || n = 0x202F || n = 0x205F || n = 0x3000

/-- `strings.TrimSpace` / `bytes.TrimSpace`. -/
def trimSpace (s : String) : String :=
  String.mk ((s.data.dropWhile isSpace).reverse.dropWhile isSpace).reverse

/-- `strings.HasPrefix s p`. -/
def hasPrefix (s p : String) : Bool :=
  p.data.isPrefixOf s.data

/-- The characters following the first occurrence of `sep`, if it occurs. -/
def afterFirst (sep : Char) : List Char → Option (List Char)
  | [] => none
  | c :: cs => if c = sep then some cs else afterFirst sep cs

/-- `strings.Join`. -/
def join (parts : List String) (sep : String) : String :=
  sep.intercalate parts

/-! ## Message types -/

/-- `api.ChatMessage`. -/
structure ChatMessage where
  Role : String
  Content : JSON

/-- `ollama.Message`. -/
structure Message where
  Role : String
  Content : String
deriving DecidableEq, Repr

/-! ## Image resolution -/

/-- Membership in the character class of `b64Regexp`. -/
def isB64Char (c : Char) : Bool :=
  ('A' ≤ c && c ≤ 'Z') || ('a' ≤ c && c ≤ 'z') || ('0' ≤ c && c ≤ '9') ||
  c = '+' || c = '/' || c = '=' || c = '\r' || c = '\n'

/-- `b64Regexp.MatchString`, for the pattern `^[A-Za-z0-9+/=\r\n]+$`. -/
def b64RegexpMatch (s : String) : Bool :=
  !s.data.isEmpty && s.data.all isB64Char

/-- `maybeFetchRemoteImageToB64`. The parameter `httpGet` stands for the remote
branch: the body of a GET of the address, base64-encoded, or the error of the
request or of reading its body. -/
def maybeFetchRemoteImageToB64 (httpGet : String → Except String String) (u : String) :
    Except String String :=
  if hasPrefix u "data:" then
    match afterFirst ',' u.data with
    | some payload => .ok (String.mk payload)
    | none => .error "bad data url"
  else if hasPrefix u "http://" || hasPrefix u "https://" then
    httpGet u
  else if b64RegexpMatch (trimSpace u) then
    .ok u
  else
    .error "not URL or b64"

/-! ## Enrichment -/

/-- The collaborators of `toOllamaMessages`. The OCR service is taken as a
function of the payload it is sent. -/
structure Collaborators where
  /-- `ocr.Client.FromBase64Image`. -/
  ocr : String → String
  /-- The remote fetch of `maybeFetchRemoteImageToB64`. -/
  httpGet : String → Except String String
  /-- `json.Marshal`, the serialization or its failure. -/
  marshal : JSON → Option String
  /-- `fmt.Sprint`. -/
  sprint : JSON → String

/-- The address of an image part: the `image_url` field when present (a string,
or an object with a string `url`), else a string `url` field, else empty. -/
def imageURLOf (part : JMap) : String :=
  match JMap.get part "image_url" with
  | some iu =>
    match iu with
    | JSON.str u => u
    | JSON.obj u =>
      match JMap.getString u "url" with
      | some ur => ur
      | none => ""
    | _ => ""
  | none =>
    match JMap.getString part "url" with
    | some u => u
    | none => ""

/-- The accumulators of the part loop of `toOllamaMessages`. -/
structure PartAcc where
  textParts : List String
  ocrInserts : List String
deriving DecidableEq, Repr

/-- One iteration of the loop over the entries of a list content. -/
def partStep (w : Collaborators) (acc : PartAcc) (p : JSON) : PartAcc :=
  match p with
  | JSON.obj part =>
    let ptype := (JMap.getString part "type").getD ""
    if ptype = "text" || ptype = "input_text" then
      match JMap.getString part "text" with
      | some txt => { acc with textParts := acc.textParts ++ [txt] }
      | none =>
        match JMap.getString part "content" with
        | some txt => { acc with textParts := acc.textParts ++ [txt] }
        | none => acc
    else if ptype = "image_url" || ptype = "input_image" || ptype = "image" then
      let imageURL := imageURLOf part
      if imageURL ≠ "" then
        match maybeFetchRemoteImageToB64 w.httpGet imageURL with
        | .ok b64 =>
          if b64 ≠ "" then
            let ocrText := w.ocr b64
            let ocrText := if ocrText = "" then "[OCR returned empty text]" else ocrText
            { acc with ocrInserts := acc.ocrInserts ++ [ocrText] }
          else
            { acc with ocrInserts := acc.ocrInserts ++ ["[OCR could not read the image]"] }
        | .error _ =>
          { acc with ocrInserts := acc.ocrInserts ++ ["[OCR could not read the image]"] }
      else acc
    else acc
  | _ => acc

/-- The loop over the entries of a list content. -/
def partLoop (w : Collaborators) (acc : PartAcc) : List JSON → PartAcc
  | [] => acc
  | p :: rest => partLoop w (partStep w acc p) rest

/-- The text built from the accumulators once the loop is over. -/
def mergeParts (acc : PartAcc) : String :=
  let merged := join acc.textParts "\n"
  if acc.ocrInserts.length > 0 then
    let merged := if merged ≠ "" then merged ++ "\n\n" else merged
    merged ++ ("[Image OCR]\n" ++ join acc.ocrInserts "\n\n")
  else merged

/-- The enriched text of one message content. -/
def enrichContent (w : Collaborators) (content : JSON) : String :=
  match content with
  | JSON.str v => v
  | JSON.arr v => mergeParts (partLoop w ⟨[], []⟩ v)
  | v =>
    match w.marshal v with
    | none => w.sprint v
    | some b => b

/-- One iteration of the message loop of `toOllamaMessages`. -/
def toOllamaMessage (w : Collaborators) (m : ChatMessage) : Message :=
  let role := if m.Role = "" then "user" else m.Role
  { Role := role, Content := enrichContent w m.Content }

/-- `toOllamaMessages`. -/
def toOllamaMessages (w : Collaborators) (msgs : List ChatMessage) : List Message :=
  msgs.foldl (fun out m => out ++ [toOllamaMessage w m]) []

/-- The loop of `promptFromMessages` over the entries of a list content: the
first non-empty `text` or `content` of a text part, empty when there is none. -/
def promptLoop : List JSON → String
  | [] => ""
  | p :: rest =>
    match p with
    | JSON.obj part =>
      let ptype := (JMap.getString part "type").getD ""
      if ptype = "text" || ptype = "input_text" then
        match JMap.getString part "text" with
        | some txt =>
          if txt ≠ "" then txt
          else
            match JMap.getString part "content" with
            | some txt => if txt ≠ "" then txt else promptLoop rest
            | none => promptLoop rest
        | none =>
          match JMap.getString part "content" with
          | some txt => if txt ≠ "" then txt else promptLoop rest
          | none => promptLoop rest
      else promptLoop rest
    | _ => promptLoop rest

/-- `promptFromMessages`; `marshal` is `json.Marshal`. -/
def promptFromMessages (marshal : JSON → Option String) (msgs : List ChatMessage) : String :=
  match msgs.getLast? with
  | none => ""
  | some last =>
    match last.Content with
    | JSON.str v => v
    | JSON.arr v => promptLoop v
    | v =>
      match marshal v with
      | some b => b
      | none => ""

/-! ## Upstream chat client -/

/-- An `*http.Response` of the backend as the client reads it. Each field is one
way the client consumes the body. -/
structure Response where
  StatusCode : Int
  /-- What `io.ReadAll(resp.Body)` returns. -/
  bodyText : String
  /-- The outcome of `json.NewDecoder(resp.Body).Decode(&data)`. -/
  decoded : Except String JMap
  /-- The lines a `bufio.Scanner` over the body yields, in order. -/
  lines : List String
  /-- What `scanner.Err()` reports once the read loop is left. -/
  scanErr : Option String

/-- `ollama.Client`: the configured context size, the HTTP exchange behind
`chatRequest` (messages, model, context size, stream flag) and
`json.Unmarshal` into a map. -/
structure Client where
  NumCtx : Int
  chatRequest : List Message → String → Int → Bool → Except String Response
  unmarshal : String → Option JMap

/-- The candidate context sizes of `CallChat`. -/
def ctxTries (numCtx : Int) : List Int :=
  [65536, 32768, 8192].foldl (fun tries v => if v ≠ numCtx then tries ++ [v] else tries) [numCtx]

/-- The reply text of a decoded backend answer: `message.content`, or the
top-level `response` when that is empty. -/
def replyText (data : JMap) : String :=
  let content :=
    match JMap.getMap data "message" with
    | some msg => (JMap.getString msg "content").getD ""
    | none => ""
  if content = "" then (JMap.getString data "response").getD "" else content

/-- The `%v` rendering of an error value that may be nil. -/
def fmtErr : Option String → String
  | some e => e
  | none => "<nil>"

/-- What `CallChat` returns, with the context sizes of the requests it issued. -/
structure CallResult where
  text : String
  err : Option String
  sent : List Int
deriving DecidableEq, Repr

/-- The attempt loop of `CallChat`: `i` is the loop index, `lastErr` the last
recorded error and `sent` the requests issued so far. -/
def callLoop (c : Client) (messages : List Message) (model : String) :
    Nat → List Int → Option String → List Int → CallResult
  | _, [], lastErr, sent =>
    { text := "", err := some ("Ollama error after ctx fallbacks: " ++ fmtErr lastErr), sent := sent }
  | i, ctx :: rest, _lastErr, sent =>
    match c.chatRequest messages model ctx false with
    | .error e => callLoop c messages model (i + 1) rest (some e) (sent ++ [ctx])
    | .ok resp =>
      if resp.StatusCode ≥ 400 then
        callLoop c messages model (i + 1) rest
          (some ("HTTP " ++ toString resp.StatusCode ++ ": " ++ resp.bodyText)) (sent ++ [ctx])
      else
        match resp.decoded with
        | .error e => callLoop c messages model (i + 1) rest (some e) (sent ++ [ctx])
        | .ok data =>
          let content := replyText data
          let content :=
            if i > 0 then "[ctx fallback to " ++ toString ctx ++ "]\n" ++ content else content
          { text := content, err := none, sent := sent ++ [ctx] }

/-- `Client.CallChat`. -/
def CallChat (c : Client) (messages : List Message) (model : String) : CallResult :=
  if model = "" then
    { text := "", err := some "model is required", sent := [] }
  else
    callLoop c messages model 0 (ctxTries c.NumCtx) none []

/-- `trimDataPrefix`. -/
def trimDataPrefix (line : String) : String :=
  let line := trimSpace line
  if line = "" then ""
  else if hasPrefix line "data:" then trimSpace (String.mk (line.data.drop 5))
  else line

/-- The incremental text of one decoded stream line. -/
def deltaOf (data : JMap) : String :=
  let delta :=
    match JMap.getMap data "message" with
    | some msg =>
      match JMap.getString msg "content" with
      | some c => c
      | none => ""
    | none => ""
  if delta = "" then
    match JMap.getString data "response" with
    | some c => c
    | none => delta
  else delta

/-- The check of `scanner.Err()` that follows the read loop of `StreamChat`. -/
def streamEnd : Option String → List String
  | some e => ["\n[Ollama streaming error: " ++ e ++ "]\n"]
  | none => []

/-- The read loop of `StreamChat` and the check of the scanner error after it:
the strings sent on the channel, in order. -/
def streamLoop (unmarshal : String → Option JMap) (scanErr : Option String) :
    List String → List String
  | [] => streamEnd scanErr
  | raw :: rest =>
    let line := trimDataPrefix raw
    if line = "" then streamLoop unmarshal scanErr rest
    else
      match unmarshal line with
      | none => streamLoop unmarshal scanErr rest
      | some data =>
        if JMap.getBool data "done" = some true then
          streamEnd scanErr
        else
          let delta := deltaOf data
          if delta ≠ "" then delta :: streamLoop unmarshal scanErr rest
          else streamLoop unmarshal scanErr rest

/-- `Client.StreamChat`: the strings delivered on the returned channel. -/
def StreamChat (c : Client) (messages : List Message) (model : String) : List String :=
  match c.chatRequest messages model c.NumCtx true with
  | .error e => ["\n[Ollama streaming error: " ++ e ++ "]\n"]
  | .ok resp =>
    if resp.StatusCode ≥ 400 then
      ["\n[Ollama streaming error: HTTP " ++ toString resp.StatusCode ++ ": " ++
        resp.bodyText ++ "]\n"]
    else streamLoop c.unmarshal resp.scanErr resp.lines

/-! ## Stream transcoding -/

/-- What a streaming handler writes to the connection: an event
`"data: " ++ json.Marshal(payload) ++ "\n\n"`, or a literal string. -/
inductive Frame where
  | event (payload : JSON) : Frame
  | literal (text : String) : Frame

/-- The readings of the clock taken for the event with a given index:
`time.Now().UnixMilli()` and `NowTS()`. -/
structure Clock where
  unixMilli : Nat → Int
  unix : Nat → Int

/-- The payload of one event of the `/v1/responses` stream. -/
def responseEvent (clock : Clock) (k : Nat) (model answer : String) : JSON :=
  JSON.obj [
    ("id", JSON.str ("resp_" ++ toString (clock.unixMilli k))),
    ("object", JSON.str "response"),
    ("created", JSON.int (clock.unix k)),
    ("model", JSON.str model),
    ("output", JSON.arr [
      JSON.obj [
        ("type", JSON.str "message"),
        ("role", JSON.str "assistant"),
        ("content", JSON.arr [
          JSON.obj [("type", JSON.str "text"), ("text", JSON.str answer)]])]]),
    ("usage", JSON.null)]

/-- The streaming branch of `handleResponses`: the loop over the tokens of
`StreamChat` followed by the sentinel. `collected` is the slice of tokens
gathered so far and `k` the number of events already written. -/
def responsesStreamLoop (clock : Clock) (model : String) :
    List String → Nat → List String → List Frame
  | _, _, [] => [Frame.literal "data: [DONE]\n\n"]
  | collected, k, deltaText :: rest =>
    let collected := collected ++ [deltaText]
    let answer := join collected ""
    Frame.event (responseEvent clock k model answer) ::
      responsesStreamLoop clock model collected (k + 1) rest

/-- The frames `handleResponses` writes for `stream = true`. -/
def handleResponsesStream (clock : Clock) (model : String) (tokens : List String) : List Frame :=
  responsesStreamLoop clock model [] 0 tokens

/-! ## Views of a content list used to state the properties -/

/-- The declared type of a content entry: the string `type` field of an
object, empty for anything else. -/
def entryType : JSON → String
  | JSON.obj part => (JMap.getString part "type").getD ""
  | _ => ""

/-- The entry is a text part. -/
def isTextEntry (p : JSON) : Bool :=
  entryType p = "text" || entryType p = "input_text"

/-- The entry is an image part. -/
def isImageEntry (p : JSON) : Bool :=
  entryType p = "image_url" || entryType p = "input_image" || entryType p = "image"

/-- The entry is an object of a recognised type. -/
def isRecognisedEntry (p : JSON) : Bool :=
  isTextEntry p || isImageEntry p

/-- The text a text part contributes: its string `text` field, else its string
`content` field. -/
def textPartOf : JSON → Option String
  | JSON.obj part =>
    if isTextEntry (JSON.obj part) then
      match JMap.getString part "text" with
      | some txt => some txt
      | none => JMap.getString part "content"
    else none
  | _ => none

/-- The text parts of a content list, in source order. -/
def textPartsOf (items : List JSON) : List String :=
  items.filterMap textPartOf

/-- The source of an image part, when it has a non-empty one. -/
def imageSourceOf : JSON → Option String
  | JSON.obj part =>
    if isImageEntry (JSON.obj part) then
      if imageURLOf part ≠ "" then some (imageURLOf part) else none
    else none
  | _ => none

/-- The non-empty image sources of a content list, in source order. -/
def imageSourcesOf (items : List JSON) : List String :=
  items.filterMap imageSourceOf

/-- The OCR snippet for one image source. -/
def snippetOf (w : Collaborators) (source : String) : String :=
  match maybeFetchRemoteImageToB64 w.httpGet source with
  | .ok b64 =>
    if b64 = "" then "[OCR could not read the image]"
    else if w.ocr b64 = "" then "[OCR returned empty text]"
    else w.ocr b64
  | .error _ => "[OCR could not read the image]"

/-- The OCR snippets of a content list, in source order. -/
def ocrSnippetsOf (w : Collaborators) (items : List JSON) : List String :=
  (imageSourcesOf items).map (snippetOf w)

/-! ## Sample inputs -/

/-- Collaborators whose OCR service answers `cat` and whose network is down. -/
def sampleWorld : Collaborators :=
  { ocr := fun _ => "cat", httpGet := fun _ => .error "unreachable",
    marshal := fun _ => none, sprint := fun _ => "" }

/-- A text part. -/
def textEntry (s : String) : JSON :=
  JSON.obj [("type", JSON.str "text"), ("text", JSON.str s)]

/-- An image part in the `image_url` object form. -/
def imageEntry (source : String) : JSON :=
  JSON.obj [("type", JSON.str "image_url"), ("image_url", JSON.obj [("url", JSON.str source)])]

/-- The content of the example: one text part and one image part. -/
def sampleOcrItems : List JSON :=
  [textEntry "describe this", imageEntry "data:image/png;base64,AAAA"]

/-- A list content with two text parts and one entry that is not an object. -/
def sampleTextItems : List JSON :=
  [textEntry "a", JSON.null, textEntry "b"]

/-- An image part that names no source. -/
def imageEntryNoSource : JSON :=
  JSON.obj [("type", JSON.str "image")]

/-- A content with an image whose source is malformed between two readable
images. -/
def sampleMixedImages : List JSON :=
  [imageEntry "data:image/png;base64,AAAA", imageEntry "not base64!",
    imageEntry "data:image/png;base64,BBBB"]

/-- A text part whose `text` is empty and whose `content` is not. -/
def sampleEmptyTextEntry : JSON :=
  JSON.obj [("type", JSON.str "text"), ("text", JSON.str ""), ("content", JSON.str "hi")]

/-! ## Views of the attempt loop used to state the properties -/

/-- The outcome of one attempt of `CallChat` with a given context size: the
decoded answer when the request goes through with a status below 400 and its
body decodes, otherwise the error the loop records. -/
def attempt (c : Client) (messages : List Message) (model : String) (ctx : Int) :
    Except String JMap :=
  match c.chatRequest messages model ctx false with
  | .error e => .error e
  | .ok resp =>
    if resp.StatusCode ≥ 400 then
      .error ("HTTP " ++ toString resp.StatusCode ++ ": " ++ resp.bodyText)
    else resp.decoded

/-- A backend answer of the nested form, holding `text`. -/
def sampleAnswer (text : String) : Response :=
  { StatusCode := 200, bodyText := "", decoded := .ok [("message", JSON.obj [("content", JSON.str text)])],
    lines := [], scanErr := none }

/-- A client with default context size 8192 whose backend refuses that size
with status 500 and answers `hello` for any other. -/
def sampleFallbackClient : Client :=
  { NumCtx := 8192,
    chatRequest := fun _ _ ctx _ =>
      if ctx = 8192 then
        .ok { StatusCode := 500, bodyText := "too large", decoded := .error "", lines := [],
              scanErr := none }
      else .ok (sampleAnswer "hello"),
    unmarshal := fun _ => none }

/-- A client whose backend is unreachable for every context size; the error
names the size that was tried. -/
def sampleDownClient : Client :=
  { NumCtx := 8192,
    chatRequest := fun _ _ ctx _ => .error ("dial " ++ toString ctx),
    unmarshal := fun _ => none }

/-! ## Views of the stream used to state the properties -/

/-- The completion flag of a decoded stream line: the entry `done` of the
object holds the boolean true. -/
def isDone (data : JMap) : Bool :=
  match JMap.get data "done" with
  | some (JSON.bool true) => true
  | _ => false

/-- The nested message content of a decoded stream line: the string under
`content` in the object under `message`, empty when there is none. -/
def messageContent (data : JMap) : String :=
  match JMap.get data "message" with
  | some (JSON.obj msg) =>
    match JMap.get msg "content" with
    | some (JSON.str s) => s
    | _ => ""
  | _ => ""

/-- The legacy top-level response of a decoded stream line: the string under
`response`, empty when there is none. -/
def responseField (data : JMap) : String :=
  match JMap.get data "response" with
  | some (JSON.str s) => s
  | _ => ""

/-- The extracted text of a decoded stream line: the nested message content
when it is not empty, else the top-level response. -/
def extractedText (data : JMap) : String :=
  if messageContent data ≠ "" then messageContent data else responseField data

/-- The text of a JSON object: it opens with a left brace and closes with a
right brace. -/
def IsObjectText (body : String) : Prop :=
  body.data.head? = some '\x7b' ∧ body.data.getLast? = some '\x7d'

instance (body : String) : Decidable (IsObjectText body) := by
  unfold IsObjectText
  infer_instance

/-- The stream line `line` carries the text `body`: it is `body`, or `data:`
followed by `body`, with optional white space before, after, and between the
prefix and the text. -/
def CarriesText (line body : String) : Prop :=
  ∃ pad1 pad2 pad3 : List Char,
    (∀ c ∈ pad1, isSpace c = true) ∧ (∀ c ∈ pad2, isSpace c = true) ∧
    (∀ c ∈ pad3, isSpace c = true) ∧
    (line.data = pad1 ++ (body.data ++ pad3) ∨
      line.data = pad1 ++ ("data:".data ++ (pad2 ++ (body.data ++ pad3))))

/-- A decoded stream line carrying `text` as nested message content. -/
def contentLine (text : String) : JMap :=
  [("message", JSON.obj [("content", JSON.str text)])]

/-- A decoder that knows the lines of the samples and rejects anything else. -/
def sampleUnmarshal (line : String) : Option JMap :=
  if line = "\x7b\"message\":\x7b\"content\":\"Hello\"\x7d\x7d" then some (contentLine "Hello")
  else if line = "\x7b\"message\":\x7b\"content\":\" world\"\x7d\x7d" then some (contentLine " world")
  else if line = "\x7b\"response\":\"!\"\x7d" then some [("response", JSON.str "!")]
  else if line = "\x7b\"done\":true\x7d" then some [("done", JSON.bool true)]
  else none

/-- A client whose backend streams the given lines, read without failure. -/
def sampleStreamClient (lines : List String) : Client :=
  { NumCtx := 8192,
    chatRequest := fun _ _ _ _ =>
      .ok { StatusCode := 200, bodyText := "", decoded := .error "", lines := lines,
            scanErr := none },
    unmarshal := sampleUnmarshal }

/-- The stream of the example: two content lines and the completion line. -/
def sampleStreamLines : List String :=
  ["\x7b\"message\":\x7b\"content\":\"Hello\"\x7d\x7d", "\x7b\"message\":\x7b\"content\":\" world\"\x7d\x7d",
    "\x7b\"done\":true\x7d"]

/-- A stream whose first line is padded and prefixed with `data:`, whose
completion line is prefixed too, and which goes on after the completion line. -/
def sampleFramedLines : List String :=
  ["  data: \x7b\"message\":\x7b\"content\":\"Hello\"\x7d\x7d\r",
    "\x7b\"message\":\x7b\"content\":\" world\"\x7d\x7d",
    "data:\x7b\"done\":true\x7d", "\x7b\"response\":\"!\"\x7d"]

/-- A client whose backend streams a content line and then a JSON object on a
line longer than the 64 KiB a `bufio.Scanner` accepts: the scanner yields the
first line and then reports that the token is too long. -/
def sampleOverlongClient : Client :=
  { NumCtx := 8192,
    chatRequest := fun _ _ _ _ =>
      .ok { StatusCode := 200, bodyText := "", decoded := .error "",
            lines := ["\x7b\"message\":\x7b\"content\":\"Hello\"\x7d\x7d"],
            scanErr := some "bufio.Scanner: token too long" },
    unmarshal := sampleUnmarshal }

/-- A stream with a line that is not JSON between content lines. -/
def sampleBrokenLines : List String :=
  ["\x7b\"message\":\x7b\"content\":\"Hello\"\x7d\x7d", "data: \x7b\"message\":",
    "\x7b\"message\":\x7b\"content\":\" world\"\x7d\x7d", "\x7b\"response\":\"!\"\x7d", "\x7b\"done\":true\x7d"]

/-! ## Views of the outbound frames used to state the properties -/

/-- The text body of a `/v1/responses` event: `output[0].content[0].text`. -/
def frameText : Frame → Option String
  | Frame.event (JSON.obj out) =>
    match JMap.getList out "output" with
    | some (JSON.obj item :: _) =>
      match JMap.getList item "content" with
      | some (JSON.obj part :: _) => JMap.getString part "text"
      | _ => none
    | _ => none
  | _ => none

/-- The sentinel that ends a stream. -/
def doneSentinel : Frame :=
  Frame.literal "data: [DONE]\n\n"

/-- A clock that reads a fixed instant. -/
def sampleClock : Clock :=
  { unixMilli := fun _ => 1700000000000, unix := fun _ => 1700000000 }

/-! ## Delta framing and request messages -/

/-- The map assignment `m[key] = v`. -/
def JMap.set (m : JMap) (key : String) (v : JSON) : JMap :=
  (key, v) :: m.filter (fun kv => decide (kv.1 ≠ key))

/-- The payload of one event of the `/v1/chat/completions` stream, for a given
`delta` map and `finish_reason`. -/
def chatChunk (clock : Clock) (k : Nat) (model : String) (delta : JMap) (finish : JSON) : JSON :=
  JSON.obj [
    ("id", JSON.str ("chatcmpl_" ++ toString (clock.unixMilli k))),
    ("object", JSON.str "chat.completion.chunk"),
    ("created", JSON.int (clock.unix k)),
    ("model", JSON.str model),
    ("choices", JSON.arr [
      JSON.obj [
        ("index", JSON.int 0),
        ("delta", JSON.obj delta),
        ("finish_reason", finish)]])]

/-- The streaming branch of `handleChatCompletions`: the loop over the tokens
of `StreamChat`, then the closing event and the sentinel. `first` is the flag
of the loop and `k` the number of events already written. -/
def chatStreamLoop (clock : Clock) (model : String) : Bool → Nat → List String → List Frame
  | _, k, [] =>
    [Frame.event (chatChunk clock k model [] (JSON.str "stop")),
      Frame.literal "data: [DONE]\n\n"]
  | first, k, deltaText :: rest =>
    let delta : JMap := [("content", JSON.str deltaText)]
    let delta := if first then JMap.set delta "role" (JSON.str "assistant") else delta
    Frame.event (chatChunk clock k model delta JSON.null) ::
      chatStreamLoop clock model false (k + 1) rest

/-- The frames `handleChatCompletions` writes for `stream = true`. -/
def handleChatCompletionsStream (clock : Clock) (model : String) (tokens : List String) :
    List Frame :=
  chatStreamLoop clock model true 0 tokens

/-- The loop of `responsesToMessages` over a list of turns; the function runs
the same loop over `input` and over `messages`. -/
def turnsLoop (msgs : List ChatMessage) : List JSON → List ChatMessage
  | [] => msgs
  | t :: rest =>
    match t with
    | JSON.obj m =>
      let role := (JMap.getString m "role").getD ""
      turnsLoop (msgs ++ [{ Role := role, Content := (JMap.get m "content").getD JSON.null }]) rest
    | _ => turnsLoop msgs rest

/-- `responsesToMessages`. -/
def responsesToMessages (body : JMap) : List ChatMessage :=
  match JMap.getList body "input" with
  | some input => turnsLoop [] input
  | none =>
    match JMap.getList body "messages" with
    | some msgsRaw => turnsLoop [] msgsRaw
    | none => []

/-! ## Views of the delta frames and of a request used to state the properties -/

/-- The `delta` map of a chat-completion chunk: `choices[0].delta`. -/
def chunkDelta : Frame → Option JMap
  | Frame.event (JSON.obj chunk) =>
    match JMap.getList chunk "choices" with
    | some (JSON.obj choice :: _) => JMap.getMap choice "delta"
    | _ => none
  | _ => none

/-- The `finish_reason` of a chat-completion chunk, when it is a string. -/
def chunkFinish : Frame → Option String
  | Frame.event (JSON.obj chunk) =>
    match JMap.getList chunk "choices" with
    | some (JSON.obj choice :: _) => JMap.getString choice "finish_reason"
    | _ => none
  | _ => none

/-- The incremental text a frame carries: the string `content` of its delta. -/
def chunkContent (f : Frame) : Option String :=
  (chunkDelta f).bind (fun d => JMap.getString d "content")

/-- The role marker a frame carries: the string `role` of its delta. -/
def chunkRole (f : Frame) : Option String :=
  (chunkDelta f).bind (fun d => JMap.getString d "role")

/-- The delta of the event written for the token with index `k`. -/
def deltaFor (k : Nat) (deltaText : String) : JMap :=
  if k = 0 then [("role", JSON.str "assistant"), ("content", JSON.str deltaText)]
  else [("content", JSON.str deltaText)]

/-- The message a turn of a request stands for: its string `role` and its
`content`, for a turn that is an object. -/
def turnMessage : JSON → Option ChatMessage
  | JSON.obj m =>
    some { Role := (JMap.getString m "role").getD "", Content := (JMap.get m "content").getD JSON.null }
  | _ => none

/-- The character belongs to the base64 alphabet with padding, or is a line break. -/
def IsB64Or (c : Char) : Prop :=
  ('A' ≤ c ∧ c ≤ 'Z') ∨ ('a' ≤ c ∧ c ≤ 'z') ∨ ('0' ≤ c ∧ c ≤ '9') ∨
    c = '+' ∨ c = '/' ∨ c = '=' ∨ c = '\r' ∨ c = '\n'

instance : DecidablePred IsB64Or := fun c => by
  unfold IsB64Or
  infer_instance

/-- A request body whose `input` is a plain string and whose `messages` is a
list of one turn with the given role. -/
def sampleStringInputBody (role : String) : JMap :=
  [("model", JSON.str "llama3"), ("input", JSON.str "hi"),
    ("messages", JSON.arr [JSON.obj [("role", JSON.str role), ("content", JSON.str "x")]])]

/-- A request body with a list `input` of two turns around an entry that is not
an object, and a `messages` list. -/
def sampleBothBody : JMap :=
  [("model", JSON.str "llama3"),
    ("input", JSON.arr [JSON.obj [("role", JSON.str "system"), ("content", JSON.str "be brief")],
      JSON.str "stray", JSON.obj [("role", JSON.str "user"), ("content", JSON.str "hi")]]),
    ("messages", JSON.arr [JSON.obj [("role", JSON.str "user"), ("content", JSON.str "x")]])]

/-! # Properties -/

theorem toOllamaMessages_foldl (w : Collaborators) (msgs : List ChatMessage) (acc : List Message) :
    msgs.foldl (fun out m => out ++ [toOllamaMessage w m]) acc =
      acc ++ msgs.map (toOllamaMessage w) := by
  induction msgs generalizing acc with
  | nil => simp
  | cons m rest ih => simp [ih]

theorem toOllamaMessages_eq_map (w : Collaborators) (msgs : List ChatMessage) :
    toOllamaMessages w msgs = msgs.map (toOllamaMessage w) := by
  simp [toOllamaMessages, toOllamaMessages_foldl]

theorem partStep_eq (w : Collaborators) (acc : PartAcc) (p : JSON) :
    partStep w acc p =
      { textParts := acc.textParts ++ (textPartOf p).toList,
        ocrInserts := acc.ocrInserts ++ ((imageSourceOf p).map (snippetOf w)).toList } := by
  cases p with
  | obj part =>
    simp only [partStep, textPartOf, imageSourceOf, isTextEntry, isImageEntry, entryType]
    by_cases h1 : (JMap.getString part "type").getD "" = "text"
    · simp only [h1]
      cases ht : JMap.getString part "text" with
      | some t => simp
      | none => cases hc : JMap.getString part "content" <;> simp
    · by_cases h2 : (JMap.getString part "type").getD "" = "input_text"
      · simp only [h2]
        cases ht : JMap.getString part "text" with
        | some t => simp
        | none => cases hc : JMap.getString part "content" <;> simp
      · by_cases h3 : ((JMap.getString part "type").getD "" = "image_url" ∨
            (JMap.getString part "type").getD "" = "input_image") ∨
            (JMap.getString part "type").getD "" = "image"
        · simp only [h1, h2, h3, decide_False, decide_True, Bool.or_self, Bool.false_eq_true, if_false, if_true, Bool.or_eq_true, decide_eq_true_eq]
          by_cases hu : imageURLOf part = ""
          · simp [hu]
          · simp only [hu, ne_eq, not_false_eq_true, if_true, snippetOf]
            cases hr : maybeFetchRemoteImageToB64 w.httpGet (imageURLOf part) with
            | error e => simp [snippetOf, hr]
            | ok b64 =>
              by_cases hb : b64 = ""
              · simp [snippetOf, hr, hb]
              · by_cases ho : w.ocr b64 = "" <;> simp [snippetOf, hr, hb, ho]
        · simp [h1, h2, h3]
  | _ => simp [partStep, textPartOf, imageSourceOf]

theorem partLoop_eq (w : Collaborators) (items : List JSON) (acc : PartAcc) :
    partLoop w acc items =
      { textParts := acc.textParts ++ textPartsOf items,
        ocrInserts := acc.ocrInserts ++ ocrSnippetsOf w items } := by
  induction items generalizing acc with
  | nil => simp [partLoop, textPartsOf, ocrSnippetsOf, imageSourcesOf]
  | cons p rest ih =>
    rw [partLoop, ih, partStep_eq]
    simp only [textPartsOf, ocrSnippetsOf, imageSourcesOf, List.filterMap_cons]
    cases textPartOf p <;> cases imageSourceOf p <;> simp

theorem enrichContent_arr (w : Collaborators) (items : List JSON) :
    enrichContent w (JSON.arr items) =
      mergeParts { textParts := textPartsOf items, ocrInserts := ocrSnippetsOf w items } := by
  simp [enrichContent, partLoop_eq]

theorem textPartOf_unrecognised (p : JSON) (h : isRecognisedEntry p = false) :
    textPartOf p = none := by
  cases p <;> simp_all [textPartOf, isRecognisedEntry]

theorem imageSourceOf_unrecognised (p : JSON) (h : isRecognisedEntry p = false) :
    imageSourceOf p = none := by
  cases p <;> simp_all [imageSourceOf, isRecognisedEntry]

theorem imageSourceOf_not_image (p : JSON) (h : isImageEntry p = false) :
    imageSourceOf p = none := by
  cases p <;> simp_all [imageSourceOf]

theorem filterMap_filter_of_none {α β : Type} (f : α → Option β) (q : α → Bool)
    (h : ∀ a, q a = false → f a = none) (l : List α) :
    (l.filter q).filterMap f = l.filterMap f := by
  induction l with
  | nil => rfl
  | cons a rest ih =>
    cases hq : q a
    · simp [List.filter_cons, hq, List.filterMap_cons, h a hq, ih]
    · simp [List.filter_cons, hq, List.filterMap_cons, ih]

theorem enrichContent_filter (w : Collaborators) (items : List JSON) :
    enrichContent w (JSON.arr (items.filter isRecognisedEntry)) = enrichContent w (JSON.arr items) := by
  simp only [enrichContent_arr, textPartsOf, ocrSnippetsOf, imageSourcesOf]
  rw [filterMap_filter_of_none _ _ textPartOf_unrecognised,
    filterMap_filter_of_none _ _ imageSourceOf_unrecognised]

theorem ocrSnippetsOf_no_image (w : Collaborators) (items : List JSON)
    (h : ∀ p ∈ items, isImageEntry p = false) : ocrSnippetsOf w items = [] := by
  simp only [ocrSnippetsOf, imageSourcesOf, List.map_eq_nil_iff, List.filterMap_eq_nil_iff]
  intro p hp
  exact imageSourceOf_not_image p (h p hp)

/-- C1: a message whose content is a plain string is passed on verbatim; a
message whose content is a list without image parts gets exactly the
newline-join of its text parts, in source order, with no OCR marker; and entries
that are not objects of a recognised type can be removed from any content list
without changing the enriched message. -/
theorem toOllamaMessages_without_images (w : Collaborators) (msgs : List ChatMessage)
    (i : Nat) (m : ChatMessage) (hm : msgs[i]? = some m) :
    ∃ out, (toOllamaMessages w msgs)[i]? = some out ∧
      (∀ s, m.Content = JSON.str s → out.Content = s) ∧
      (∀ items, m.Content = JSON.arr items → (∀ p ∈ items, isImageEntry p = false) →
        out.Content = join (textPartsOf items) "\n") ∧
      (∀ items, m.Content = JSON.arr items →
        (toOllamaMessages w
          (msgs.set i { m with Content := JSON.arr (items.filter isRecognisedEntry) }))[i]? =
            some out) := by
  refine ⟨toOllamaMessage w m, ?_, ?_, ?_, ?_⟩
  · simp [toOllamaMessages_eq_map, hm]
  · intro s hs
    simp [toOllamaMessage, hs, enrichContent]
  · intro items hc hno
    simp [toOllamaMessage, hc, enrichContent_arr, ocrSnippetsOf_no_image w items hno, mergeParts]
  · intro items hc
    have hlt : i < msgs.length := by
      rcases Nat.lt_or_ge i msgs.length with h | h
      · exact h
      · rw [List.getElem?_eq_none h] at hm; cases hm
    simp [toOllamaMessages_eq_map, hlt, toOllamaMessage, enrichContent_filter, hc]

/-- Two text parts around an entry that is not an object give `a`, newline, `b`. -/
theorem toOllamaMessages_without_images_witness :
    ∃ out, (toOllamaMessages sampleWorld [⟨"", JSON.arr sampleTextItems⟩])[0]? = some out ∧
      out.Content = "a\nb" := by
  obtain ⟨out, h0, _, h2, _⟩ :=
    toOllamaMessages_without_images sampleWorld [⟨"", JSON.arr sampleTextItems⟩] 0
      ⟨"", JSON.arr sampleTextItems⟩ rfl
  exact ⟨out, h0, h2 sampleTextItems rfl (by decide)⟩

theorem toOllamaMessages_getElem (w : Collaborators) (msgs : List ChatMessage) (i : Nat)
    (m : ChatMessage) (hm : msgs[i]? = some m) :
    (toOllamaMessages w msgs)[i]? = some (toOllamaMessage w m) := by
  simp [toOllamaMessages_eq_map, hm]

/-- C2 (as stated, refuted): a message made of one image part whose OCR result
is `cat` yields an OCR insert, its enriched text is `[Image OCR]` followed by the
snippet, and that differs from the text with a blank-line separator in front. -/
theorem ocr_separator_counterexample :
    ocrSnippetsOf sampleWorld [imageEntry "data:image/png;base64,AAAA"] = ["cat"] ∧
    (toOllamaMessages sampleWorld
      [⟨"user", JSON.arr [imageEntry "data:image/png;base64,AAAA"]⟩]).map Message.Content
        = ["[Image OCR]\ncat"] ∧
    "[Image OCR]\ncat" ≠
      join (textPartsOf [imageEntry "data:image/png;base64,AAAA"]) "\n" ++ "\n\n" ++
        "[Image OCR]" ++ "\n" ++
        join (ocrSnippetsOf sampleWorld [imageEntry "data:image/png;base64,AAAA"]) "\n\n" := by
  decide

/-- C2 (amended): for a list content that yields at least one OCR insert, the
enriched text is the marker `[Image OCR]`, a newline and the snippets joined by
blank lines, preceded by the newline-join of the text parts and a blank-line
separator exactly when that join is not empty. -/
theorem toOllamaMessages_with_ocr (w : Collaborators) (msgs : List ChatMessage)
    (i : Nat) (m : ChatMessage) (items : List JSON)
    (hm : msgs[i]? = some m) (hc : m.Content = JSON.arr items)
    (hocr : ocrSnippetsOf w items ≠ []) :
    ∃ out, (toOllamaMessages w msgs)[i]? = some out ∧
      (join (textPartsOf items) "\n" ≠ "" →
        out.Content = join (textPartsOf items) "\n" ++ "\n\n" ++ "[Image OCR]" ++ "\n" ++
          join (ocrSnippetsOf w items) "\n\n") ∧
      (join (textPartsOf items) "\n" = "" →
        out.Content = "[Image OCR]" ++ "\n" ++ join (ocrSnippetsOf w items) "\n\n") := by
  refine ⟨toOllamaMessage w m, toOllamaMessages_getElem w msgs i m hm, ?_, ?_⟩
  · intro hne
    have hpos : 0 < (ocrSnippetsOf w items).length := List.length_pos.mpr hocr
    have e : "\n\n" ++ "[Image OCR]\n" = "\n\n[Image OCR]\n" := by decide
    simp [toOllamaMessage, hc, enrichContent_arr, mergeParts, hpos, hne, String.append_assoc]
    rw [← String.append_assoc "\n\n", e]
  · intro he
    have hpos : 0 < (ocrSnippetsOf w items).length := List.length_pos.mpr hocr
    simp [toOllamaMessage, hc, enrichContent_arr, mergeParts, hpos, he, String.append_assoc]

/-- The example of the specification: `describe this` and one image read as `cat`. -/
theorem toOllamaMessages_with_ocr_witness :
    ∃ out, (toOllamaMessages sampleWorld [⟨"user", JSON.arr sampleOcrItems⟩])[0]? = some out ∧
      out.Content = "describe this\n\n[Image OCR]\ncat" := by
  obtain ⟨out, h0, h1, _⟩ :=
    toOllamaMessages_with_ocr sampleWorld [⟨"user", JSON.arr sampleOcrItems⟩] 0
      ⟨"user", JSON.arr sampleOcrItems⟩ sampleOcrItems rfl rfl (by decide)
  exact ⟨out, h0, (h1 (by decide)).trans (by decide)⟩

/-- C3 (as stated, refuted): an image part that names no source contributes no
snippet at all, and an image whose data URI resolves successfully to an empty
payload gets the `could not read` placeholder although resolution did not fail. -/
theorem ocr_snippet_counterexample :
    isImageEntry imageEntryNoSource = true ∧
    (partLoop sampleWorld ⟨[], []⟩ [imageEntryNoSource]).ocrInserts = [] ∧
    maybeFetchRemoteImageToB64 sampleWorld.httpGet "data:image/png;base64," = .ok "" ∧
    (partLoop sampleWorld ⟨[], []⟩ [imageEntry "data:image/png;base64,"]).ocrInserts =
      ["[OCR could not read the image]"] :=
  ⟨by decide, by decide, rfl, by decide⟩

/-- C3 (amended): every message yields a message; a list content contributes
one OCR snippet per image part that names a non-empty source, in source order,
each computed from its own source alone: the `could not read` placeholder when
resolution fails or yields an empty payload, otherwise the OCR result for the
resolved payload, or the `empty text` placeholder when that result is empty. -/
theorem toOllamaMessages_snippets (w : Collaborators) (msgs : List ChatMessage) :
    (toOllamaMessages w msgs).length = msgs.length ∧
    (∀ (i : Nat) (m : ChatMessage) (items : List JSON), msgs[i]? = some m → m.Content = JSON.arr items →
      ∃ out, (toOllamaMessages w msgs)[i]? = some out ∧
        out.Content = mergeParts
          { textParts := textPartsOf items,
            ocrInserts := (imageSourcesOf items).map (snippetOf w) } ∧
        (partLoop w ⟨[], []⟩ items).ocrInserts = (imageSourcesOf items).map (snippetOf w)) ∧
    (∀ (source e : String), maybeFetchRemoteImageToB64 w.httpGet source = .error e →
      snippetOf w source = "[OCR could not read the image]") ∧
    (∀ source : String, maybeFetchRemoteImageToB64 w.httpGet source = .ok "" →
      snippetOf w source = "[OCR could not read the image]") ∧
    (∀ (source b64 : String), maybeFetchRemoteImageToB64 w.httpGet source = .ok b64 → b64 ≠ "" →
      snippetOf w source = if w.ocr b64 = "" then "[OCR returned empty text]" else w.ocr b64) := by
  refine ⟨by simp [toOllamaMessages_eq_map], ?_, ?_, ?_, ?_⟩
  · intro i m items hm hc
    refine ⟨toOllamaMessage w m, toOllamaMessages_getElem w msgs i m hm, ?_, ?_⟩
    · simp [toOllamaMessage, hc, enrichContent_arr, ocrSnippetsOf]
    · simp [partLoop_eq, ocrSnippetsOf]
  · intro source e h
    simp [snippetOf, h]
  · intro source h
    simp [snippetOf, h]
  · intro source b64 h hb
    simp [snippetOf, h, hb]

/-- A malformed source between two readable images degrades to its placeholder only. -/
theorem toOllamaMessages_snippets_witness :
    ∃ out, (toOllamaMessages sampleWorld [⟨"user", JSON.arr sampleMixedImages⟩])[0]? = some out ∧
      out.Content = "[Image OCR]\ncat\n\n[OCR could not read the image]\n\ncat" := by
  obtain ⟨out, h0, h1, _⟩ :=
    (toOllamaMessages_snippets sampleWorld [⟨"user", JSON.arr sampleMixedImages⟩]).2.1 0
      ⟨"user", JSON.arr sampleMixedImages⟩ sampleMixedImages rfl rfl
  exact ⟨out, h0, h1.trans (by decide)⟩

/-- C4 (evaluation at the failing input): for a text part with an empty `text`
and `content` equal to `hi`, the enrichment uses the empty `text` while
`promptFromMessages` selects `hi`. -/
theorem text_part_empty_text_divergence :
    toOllamaMessages sampleWorld [⟨"user", JSON.arr [sampleEmptyTextEntry]⟩] = [⟨"user", ""⟩] ∧
    promptFromMessages sampleWorld.marshal [⟨"user", JSON.arr [sampleEmptyTextEntry]⟩] = "hi" := by
  decide

theorem ctxTries_eq (d : Int) :
    ctxTries d = d :: [65536, 32768, 8192].filter (fun v => decide (v ≠ d)) := by
  by_cases h1 : (65536 : Int) = d <;> by_cases h2 : (32768 : Int) = d <;>
    by_cases h3 : (8192 : Int) = d <;>
    simp [ctxTries, List.filter_cons, h1, h2, h3]

/-- C5: the candidate list of `CallChat` is the configured default followed by
those of 65536, 32768, 8192, in that order, that differ from it; it starts with
the default, has no duplicate, holds each of the three constants exactly once,
and is `[8192, 65536, 32768]` for the default 8192. -/
theorem ctxTries_candidates (d : Int) :
    ctxTries d = d :: [65536, 32768, 8192].filter (fun v => decide (v ≠ d)) ∧
    (ctxTries d).head? = some d ∧
    (ctxTries d).Nodup ∧
    (ctxTries d).count 65536 = 1 ∧
    (ctxTries d).count 32768 = 1 ∧
    (ctxTries d).count 8192 = 1 ∧
    ctxTries 8192 = [8192, 65536, 32768] := by
  refine ⟨ctxTries_eq d, ?_, ?_, ?_, ?_, ?_, by decide⟩
  · rw [ctxTries_eq]; rfl
  all_goals
    rw [ctxTries_eq]
    by_cases h1 : (65536 : Int) = d
    · subst h1; decide
    · by_cases h2 : (32768 : Int) = d
      · subst h2; decide
      · by_cases h3 : (8192 : Int) = d
        · subst h3; decide
        · have h1' : d ≠ 65536 := fun h => h1 h.symm
          have h2' : d ≠ 32768 := fun h => h2 h.symm
          have h3' : d ≠ 8192 := fun h => h3 h.symm
          simp [List.filter_cons, h1, h2, h3, h1', h2', h3', List.count_cons]

theorem callLoop_error (c : Client) (messages : List Message) (model : String) (i : Nat)
    (ctx : Int) (rest : List Int) (lastErr : Option String) (sent : List Int) (e : String)
    (h : attempt c messages model ctx = .error e) :
    callLoop c messages model i (ctx :: rest) lastErr sent =
      callLoop c messages model (i + 1) rest (some e) (sent ++ [ctx]) := by
  unfold attempt at h
  rw [callLoop]
  cases hr : c.chatRequest messages model ctx false with
  | error e' =>
    rw [hr] at h
    simp only at h
    cases h
    rfl
  | ok resp =>
    rw [hr] at h
    simp only at h ⊢
    by_cases hs : resp.StatusCode ≥ 400
    · simp only [hs, if_true] at h ⊢
      cases h
      rfl
    · simp only [hs, if_false] at h ⊢
      rw [h]

theorem callLoop_ok (c : Client) (messages : List Message) (model : String) (i : Nat)
    (ctx : Int) (rest : List Int) (lastErr : Option String) (sent : List Int) (data : JMap)
    (h : attempt c messages model ctx = .ok data) :
    callLoop c messages model i (ctx :: rest) lastErr sent =
      { text := if i > 0 then "[ctx fallback to " ++ toString ctx ++ "]\n" ++ replyText data
                else replyText data,
        err := none, sent := sent ++ [ctx] } := by
  unfold attempt at h
  rw [callLoop]
  cases hr : c.chatRequest messages model ctx false with
  | error e' =>
    rw [hr] at h
    simp only at h
    cases h
  | ok resp =>
    rw [hr] at h
    simp only at h ⊢
    by_cases hs : resp.StatusCode ≥ 400
    · simp only [hs, if_true] at h
      cases h
    · simp only [hs, if_false] at h ⊢
      rw [h]

theorem callLoop_first_success (c : Client) (messages : List Message) (model : String)
    (pre post : List Int) (ctx : Int) (data : JMap)
    (hfail : ∀ x ∈ pre, ∃ e, attempt c messages model x = .error e)
    (hok : attempt c messages model ctx = .ok data)
    (i : Nat) (lastErr : Option String) (sent : List Int) :
    callLoop c messages model i (pre ++ ctx :: post) lastErr sent =
      { text := if i + pre.length > 0 then
                  "[ctx fallback to " ++ toString ctx ++ "]\n" ++ replyText data
                else replyText data,
        err := none, sent := sent ++ pre ++ [ctx] } := by
  induction pre generalizing i lastErr sent with
  | nil => simpa using callLoop_ok c messages model i ctx post lastErr sent data hok
  | cons x rest ih =>
    obtain ⟨e, he⟩ := hfail x (List.mem_cons_self _ _)
    have hrest : ∀ y ∈ rest, ∃ e, attempt c messages model y = .error e :=
      fun y hy => hfail y (List.mem_cons_of_mem _ hy)
    rw [List.cons_append, callLoop_error c messages model i x _ lastErr sent e he,
      ih hrest (i + 1) (some e) (sent ++ [x])]
    have hlen : i + 1 + rest.length = i + (x :: rest).length := by
      simp [List.length_cons]; omega
    simp [hlen]

theorem callLoop_all_fail (c : Client) (messages : List Message) (model : String)
    (errs : Int → String) (tries : List Int)
    (hfail : ∀ x ∈ tries, attempt c messages model x = .error (errs x))
    (i : Nat) (lastErr : Option String) (sent : List Int) :
    callLoop c messages model i tries lastErr sent =
      { text := "",
        err := some ("Ollama error after ctx fallbacks: " ++
          fmtErr (match tries.getLast? with
            | some x => some (errs x)
            | none => lastErr)),
        sent := sent ++ tries } := by
  induction tries generalizing i lastErr sent with
  | nil => simp [callLoop]
  | cons x rest ih =>
    have hrest : ∀ y ∈ rest, attempt c messages model y = .error (errs y) :=
      fun y hy => hfail y (List.mem_cons_of_mem _ hy)
    rw [callLoop_error c messages model i x rest lastErr sent (errs x)
      (hfail x (List.mem_cons_self _ _)), ih hrest]
    cases rest with
    | nil => simp
    | cons y ys =>
      simp [List.getLast?_cons_cons, List.getLast?_eq_getLast _ (List.cons_ne_nil y ys)]

theorem ctxTries_nodup (d : Int) : (ctxTries d).Nodup := by
  rw [ctxTries_eq]
  by_cases h1 : (65536 : Int) = d
  · subst h1; decide
  · by_cases h2 : (32768 : Int) = d
    · subst h2; decide
    · by_cases h3 : (8192 : Int) = d
      · subst h3; decide
      · have h1' : d ≠ 65536 := fun h => h1 h.symm
        have h2' : d ≠ 32768 := fun h => h2 h.symm
        have h3' : d ≠ 8192 := fun h => h3 h.symm
        simp [List.filter_cons, h1, h2, h3, h1', h2', h3']

/-- C6: with a non-empty model, when the candidates before some candidate all
fail and that candidate succeeds, `CallChat` returns without error the reply
text of that candidate (the nested message content when it is a non-empty
string, else the top-level response), unmodified when the candidate is the first
of the list and prefixed with the marker naming its context size otherwise; with
default 8192 and the second candidate being the first to succeed the marker
names 65536. -/
theorem CallChat_first_success (c : Client) (messages : List Message) (model : String)
    (pre post : List Int) (ctx : Int) (data : JMap)
    (hmodel : model ≠ "")
    (htries : ctxTries c.NumCtx = pre ++ ctx :: post)
    (hfail : ∀ x ∈ pre, ∃ e, attempt c messages model x = .error e)
    (hok : attempt c messages model ctx = .ok data) :
    (CallChat c messages model).err = none ∧
    (pre = [] → (CallChat c messages model).text = replyText data) ∧
    (pre ≠ [] → (CallChat c messages model).text =
      "[ctx fallback to " ++ toString ctx ++ "]\n" ++ replyText data) ∧
    (c.NumCtx = 8192 → pre.length = 1 → (CallChat c messages model).text =
      "[ctx fallback to 65536]\n" ++ replyText data) ∧
    (∀ (msg : JMap) (s : String), JMap.getMap data "message" = some msg →
      JMap.getString msg "content" = some s → s ≠ "" → replyText data = s) ∧
    ((∀ (msg : JMap) (s : String), JMap.getMap data "message" = some msg →
      JMap.getString msg "content" = some s → s = "") →
      replyText data = (JMap.getString data "response").getD "") := by
  have hcall : CallChat c messages model =
      { text := if 0 + pre.length > 0 then
                  "[ctx fallback to " ++ toString ctx ++ "]\n" ++ replyText data
                else replyText data,
        err := none, sent := [] ++ pre ++ [ctx] } := by
    rw [CallChat, if_neg hmodel, htries]
    exact callLoop_first_success c messages model pre post ctx data hfail hok 0 none []
  have hpos : pre ≠ [] → (CallChat c messages model).text =
      "[ctx fallback to " ++ toString ctx ++ "]\n" ++ replyText data := by
    intro hne
    have hlen : 0 < pre.length := List.length_pos.mpr hne
    rw [hcall]
    simp [hlen]
  refine ⟨by rw [hcall], ?_, hpos, ?_, ?_, ?_⟩
  · intro hnil
    rw [hcall]
    simp [hnil]
  · intro hd hlen
    have h8 : ctxTries 8192 = [8192, 65536, 32768] := by decide
    rw [hd, h8] at htries
    match pre, hlen, htries with
    | [a], _, ht =>
      simp only [List.singleton_append, List.cons.injEq] at ht
      have hctx : ctx = 65536 := ht.2.1.symm
      rw [hpos (List.cons_ne_nil _ _), hctx]
      rfl
  · intro msg s hm hs hne
    simp [replyText, hm, hs, hne]
  · intro hall
    unfold replyText
    cases hm : JMap.getMap data "message" with
    | none => simp
    | some msg =>
      cases hs : JMap.getString msg "content" with
      | none => simp [hs]
      | some s => simp [hs, hall msg s hm hs]

/-- Default 8192 refused, 65536 accepted: the reply carries the marker naming 65536. -/
theorem CallChat_first_success_witness :
    (CallChat sampleFallbackClient [⟨"user", "hi"⟩] "llama3").text =
      "[ctx fallback to 65536]\nhello" :=
  ((CallChat_first_success sampleFallbackClient [⟨"user", "hi"⟩] "llama3" [8192] [32768] 65536
    [("message", JSON.obj [("content", JSON.str "hello")])] (by decide) (by decide)
    (fun x hx => ⟨"HTTP 500: too large", by
      have hx' : x = 8192 := by simpa using hx
      subst hx'
      rfl⟩)
    rfl).2.2.2.1 rfl rfl).trans (by decide)

/-- C7: with a non-empty model, when every candidate fails, `CallChat` issues
exactly one request per candidate, in list order, returns no text, and fails with
the error recorded for the last candidate; a transport error is recorded as it
is and an error status as `HTTP <status>: <body>`. -/
theorem CallChat_all_fail (c : Client) (messages : List Message) (model : String)
    (errs : Int → String) (hmodel : model ≠ "")
    (hfail : ∀ x ∈ ctxTries c.NumCtx, attempt c messages model x = .error (errs x)) :
    (CallChat c messages model).sent = ctxTries c.NumCtx ∧
    (CallChat c messages model).sent.Nodup ∧
    (CallChat c messages model).text = "" ∧
    (∃ last, (ctxTries c.NumCtx).getLast? = some last ∧
      (CallChat c messages model).err =
        some ("Ollama error after ctx fallbacks: " ++ errs last)) ∧
    (∀ (x : Int) (e : String), c.chatRequest messages model x false = .error e →
      attempt c messages model x = .error e) ∧
    (∀ (x : Int) (resp : Response), c.chatRequest messages model x false = .ok resp →
      resp.StatusCode ≥ 400 →
      attempt c messages model x =
        .error ("HTTP " ++ toString resp.StatusCode ++ ": " ++ resp.bodyText)) := by
  have hcall := callLoop_all_fail c messages model errs (ctxTries c.NumCtx) hfail 0 none []
  have hne : ctxTries c.NumCtx ≠ [] := by rw [ctxTries_eq]; exact List.cons_ne_nil _ _
  rw [List.getLast?_eq_getLast _ hne] at hcall
  have hC : CallChat c messages model = callLoop c messages model 0 (ctxTries c.NumCtx) none [] := by
    rw [CallChat, if_neg hmodel]
  refine ⟨?_, ?_, ?_, ?_, ?_, ?_⟩
  · rw [hC, hcall]; simp
  · rw [hC, hcall]; simpa using ctxTries_nodup c.NumCtx
  · rw [hC, hcall]
  · refine ⟨(ctxTries c.NumCtx).getLast hne, List.getLast?_eq_getLast _ hne, ?_⟩
    rw [hC, hcall]
    simp [fmtErr]
  · intro x e h
    simp [attempt, h]
  · intro x resp h hs
    simp [attempt, h, hs]

/-- An unreachable backend: three requests in order and the error of the last one. -/
theorem CallChat_all_fail_witness :
    CallChat sampleDownClient [⟨"user", "hi"⟩] "llama3" =
      { text := "", err := some "Ollama error after ctx fallbacks: dial 32768",
        sent := [8192, 65536, 32768] } := by
  obtain ⟨h1, _, h3, ⟨last, hl, h4⟩, _⟩ :=
    CallChat_all_fail sampleDownClient [⟨"user", "hi"⟩] "llama3"
      (fun ctx => "dial " ++ toString ctx) (by decide) (fun x _ => rfl)
  have hlast : last = 32768 := by
    have : (ctxTries sampleDownClient.NumCtx).getLast? = some 32768 := by decide
    rw [this] at hl
    exact (Option.some.inj hl).symm
  subst hlast
  cases hr : CallChat sampleDownClient [⟨"user", "hi"⟩] "llama3" with
  | mk text err sent =>
    rw [hr] at h1 h3 h4
    simp only at h1 h3 h4
    subst h1 h3 h4
    decide

theorem streamLoop_skip (unmarshal : String → Option JMap) (scanErr : Option String)
    (pre post : List String) (bad : String)
    (hbad : unmarshal (trimDataPrefix bad) = none) :
    streamLoop unmarshal scanErr (pre ++ bad :: post) =
      streamLoop unmarshal scanErr (pre ++ post) := by
  induction pre with
  | nil =>
    simp only [List.nil_append]
    rw [streamLoop]
    by_cases he : trimDataPrefix bad = ""
    · simp [he]
    · simp [he, hbad]
  | cons line rest ih =>
    simp only [List.cons_append]
    rw [streamLoop, streamLoop, ih]

/-- C9 (as stated, refuted): a line that is not JSON, in the middle of a stream
and before the completion line, is followed by the tokens of the two content
lines after it and by no error token. -/
theorem StreamChat_parse_failure_counterexample :
    sampleUnmarshal (trimDataPrefix "data: \x7b\"message\":") = none ∧
    trimDataPrefix "data: \x7b\"message\":" ≠ "" ∧
    StreamChat (sampleStreamClient sampleBrokenLines) [⟨"user", "hi"⟩] "llama3" =
      ["Hello", " world", "!"] :=
  ⟨rfl, by decide, by decide⟩

/-- C9 (amended): a line that fails to decode is skipped; the tokens of
`StreamChat` are those of the same stream without that line, so the line yields
no token of its own, error token included, and the lines after it are still
processed. -/
theorem StreamChat_skips_undecodable (c : Client) (messages : List Message) (model : String)
    (resp : Response) (pre post : List String) (bad : String)
    (hreq : c.chatRequest messages model c.NumCtx true = .ok resp)
    (hlines : resp.lines = pre ++ bad :: post)
    (hbad : c.unmarshal (trimDataPrefix bad) = none) :
    StreamChat c messages model =
      StreamChat { c with chatRequest := fun _ _ _ _ => .ok { resp with lines := pre ++ post } }
        messages model := by
  simp only [StreamChat, hreq, hlines]
  by_cases hs : resp.StatusCode ≥ 400
  · simp [hs]
  · simp only [hs, if_false]
    exact streamLoop_skip c.unmarshal resp.scanErr pre post bad hbad

/-- The stream with a broken line yields the tokens of the stream without it. -/
theorem StreamChat_skips_undecodable_witness :
    StreamChat (sampleStreamClient sampleBrokenLines) [⟨"user", "hi"⟩] "llama3" =
      StreamChat (sampleStreamClient
        ["\x7b\"message\":\x7b\"content\":\"Hello\"\x7d\x7d", "\x7b\"message\":\x7b\"content\":\" world\"\x7d\x7d",
          "\x7b\"response\":\"!\"\x7d", "\x7b\"done\":true\x7d"]) [⟨"user", "hi"⟩] "llama3" :=
  StreamChat_skips_undecodable (sampleStreamClient sampleBrokenLines) [⟨"user", "hi"⟩] "llama3"
    { StatusCode := 200, bodyText := "", decoded := .error "", lines := sampleBrokenLines,
      scanErr := none }
    ["\x7b\"message\":\x7b\"content\":\"Hello\"\x7d\x7d"]
    ["\x7b\"message\":\x7b\"content\":\" world\"\x7d\x7d", "\x7b\"response\":\"!\"\x7d", "\x7b\"done\":true\x7d"]
    "data: \x7b\"message\":" rfl rfl rfl

theorem intercalate_go_empty (acc : String) (l : List String) :
    String.intercalate.go acc "" l = l.foldl (fun a b => a ++ b) acc := by
  induction l generalizing acc with
  | nil => rfl
  | cons a rest ih => simp [String.intercalate.go, ih]

theorem join_empty_sep (l : List String) : join l "" = l.foldl (fun a b => a ++ b) "" := by
  cases l with
  | nil => rfl
  | cons a rest => simp [join, String.intercalate, intercalate_go_empty]

theorem join_snoc (l : List String) (t : String) : join (l ++ [t]) "" = join l "" ++ t := by
  simp [join_empty_sep, List.foldl_append]

theorem responsesStreamLoop_eq (clock : Clock) (model : String) (rest : List String)
    (collected : List String) (k : Nat) :
    responsesStreamLoop clock model collected k rest =
      (List.range rest.length).map (fun j =>
        Frame.event (responseEvent clock (k + j) model (join (collected ++ rest.take (j + 1)) "")))
        ++ [doneSentinel] := by
  induction rest generalizing collected k with
  | nil => simp [responsesStreamLoop, doneSentinel]
  | cons t rest ih =>
    rw [responsesStreamLoop]
    simp only [ih, List.length_cons, List.range_succ_eq_map, List.map_cons, List.map_map,
      List.cons_append, List.take_succ_cons, List.take_zero, Nat.add_zero]
    congr 1
    congr 1
    apply List.map_congr_left
    intro j _
    simp only [Function.comp, List.take_succ_cons, List.append_assoc, List.singleton_append]
    congr 2
    omega

theorem frameText_responseEvent (clock : Clock) (k : Nat) (model answer : String) :
    frameText (Frame.event (responseEvent clock k model answer)) = some answer := rfl

theorem join_take_succ_prefix (tokens : List String) (k : Nat) :
    (join (tokens.take k) "").data <+: (join (tokens.take (k + 1)) "").data := by
  rw [List.take_succ]
  cases tokens[k]? with
  | none => simp
  | some t =>
    simp only [Option.toList_some, join_snoc, String.data_append]
    exact List.prefix_append _ _

/-- C10: for tokens `t1..tn` the streaming branch of `handleResponses` writes
exactly `n` response events followed by the sentinel `data: [DONE]` and nothing
else; the text body of the k-th event is `t1 ++ ... ++ tk`, each body is a
prefix of the next, the last body is the concatenation of all tokens, and the
tokens `A`, `B`, `C` give the bodies `A`, `AB`, `ABC`. -/
theorem handleResponsesStream_cumulative (clock : Clock) (model : String)
    (tokens : List String) :
    handleResponsesStream clock model tokens =
      (List.range tokens.length).map (fun k =>
        Frame.event (responseEvent clock k model (join (tokens.take (k + 1)) "")))
        ++ [Frame.literal "data: [DONE]\n\n"] ∧
    (handleResponsesStream clock model tokens).length = tokens.length + 1 ∧
    (∀ k : Nat, k < tokens.length →
      ((handleResponsesStream clock model tokens)[k]?).bind frameText =
        some (join (tokens.take (k + 1)) "")) ∧
    (handleResponsesStream clock model tokens)[tokens.length]? =
      some (Frame.literal "data: [DONE]\n\n") ∧
    (∀ k : Nat, (join (tokens.take k) "").data <+: (join (tokens.take (k + 1)) "").data) ∧
    (tokens ≠ [] →
      ((handleResponsesStream clock model tokens)[tokens.length - 1]?).bind frameText =
        some (join tokens "")) ∧
    (handleResponsesStream clock model ["A", "B", "C"]).map frameText =
      [some "A", some "AB", some "ABC", none] := by
  have heq : handleResponsesStream clock model tokens =
      (List.range tokens.length).map (fun k =>
        Frame.event (responseEvent clock k model (join (tokens.take (k + 1)) "")))
        ++ [Frame.literal "data: [DONE]\n\n"] := by
    rw [handleResponsesStream, responsesStreamLoop_eq]
    simp [doneSentinel]
  have hbody : ∀ k : Nat, k < tokens.length →
      ((handleResponsesStream clock model tokens)[k]?).bind frameText =
        some (join (tokens.take (k + 1)) "") := by
    intro k hk
    rw [heq, List.getElem?_append_left (by simpa using hk)]
    simp [hk, frameText_responseEvent]
  refine ⟨heq, ?_, hbody, ?_, join_take_succ_prefix tokens, ?_, rfl⟩
  · rw [heq]; simp
  · rw [heq, List.getElem?_append_right (by simp)]
    simp
  · intro hne
    have hpos : 0 < tokens.length := List.length_pos.mpr hne
    have h := hbody (tokens.length - 1) (by omega)
    have hk : tokens.length - 1 + 1 = tokens.length := by omega
    rw [hk, List.take_length] at h
    exact h

/-- The third event of the tokens `A`, `B`, `C` carries `ABC`. -/
theorem handleResponsesStream_cumulative_witness :
    ((handleResponsesStream sampleClock "llama3" ["A", "B", "C"])[2]?).bind frameText =
      some "ABC" :=
  ((handleResponsesStream_cumulative sampleClock "llama3" ["A", "B", "C"]).2.2.1 2
    (by decide)).trans (by decide)

theorem chatStreamLoop_eq (clock : Clock) (model : String) (rest : List String) (k : Nat) :
    chatStreamLoop clock model (decide (k = 0)) k rest =
      (rest.enumFrom k).map (fun p =>
        Frame.event (chatChunk clock p.1 model (deltaFor p.1 p.2) JSON.null)) ++
      [Frame.event (chatChunk clock (k + rest.length) model [] (JSON.str "stop")),
        Frame.literal "data: [DONE]\n\n"] := by
  induction rest generalizing k with
  | nil => simp [chatStreamLoop]
  | cons t rest ih =>
    have hnext : chatStreamLoop clock model false (k + 1) rest =
        chatStreamLoop clock model (decide (k + 1 = 0)) (k + 1) rest := by simp
    rw [chatStreamLoop, hnext, ih (k + 1)]
    have hdelta : (if decide (k = 0) = true then
        JMap.set [("content", JSON.str t)] "role" (JSON.str "assistant")
        else [("content", JSON.str t)]) = deltaFor k t := by
      by_cases hk : k = 0
      · subst hk; rfl
      · simp [hk, deltaFor]
    simp only [hdelta, List.enumFrom_cons, List.map_cons, List.cons_append, List.length_cons]
    have hlen : k + 1 + rest.length = k + (rest.length + 1) := by omega
    rw [hlen]

theorem handleChatCompletionsStream_eq (clock : Clock) (model : String) (tokens : List String) :
    handleChatCompletionsStream clock model tokens =
      tokens.enum.map (fun p =>
        Frame.event (chatChunk clock p.1 model (deltaFor p.1 p.2) JSON.null)) ++
      [Frame.event (chatChunk clock tokens.length model [] (JSON.str "stop")),
        Frame.literal "data: [DONE]\n\n"] := by
  have h := chatStreamLoop_eq clock model tokens 0
  simp only [decide_True, Nat.zero_add] at h
  rw [handleChatCompletionsStream, h, List.enum]

theorem chunkContent_chatChunk (clock : Clock) (k : Nat) (model t : String) :
    chunkContent (Frame.event (chatChunk clock k model (deltaFor k t) JSON.null)) = some t := by
  by_cases hk : k = 0
  · subst hk; rfl
  · simp only [chunkContent, chunkDelta, chatChunk, deltaFor, hk, if_false]
    rfl

theorem chunkRole_chatChunk (clock : Clock) (k : Nat) (model t : String) :
    chunkRole (Frame.event (chatChunk clock k model (deltaFor k t) JSON.null)) =
      if k = 0 then some "assistant" else none := by
  by_cases hk : k = 0
  · subst hk; rfl
  · simp only [chunkRole, chunkDelta, chatChunk, deltaFor, hk, if_false]
    rfl

theorem chunkFinish_chatChunk (clock : Clock) (k : Nat) (model : String) (delta : JMap) :
    chunkFinish (Frame.event (chatChunk clock k model delta JSON.null)) = none := rfl

theorem filterMap_chunkContent_enumFrom (clock : Clock) (model : String) (l : List String)
    (k : Nat) :
    ((l.enumFrom k).map (fun p =>
      Frame.event (chatChunk clock p.1 model (deltaFor p.1 p.2) JSON.null))).filterMap
        chunkContent = l := by
  induction l generalizing k with
  | nil => rfl
  | cons t rest ih =>
    simp only [List.enumFrom_cons, List.map_cons, List.filterMap_cons, chunkContent_chatChunk,
      ih (k + 1)]

theorem filterMap_chunkFinish_enumFrom (clock : Clock) (model : String) (l : List String)
    (k : Nat) :
    ((l.enumFrom k).map (fun p =>
      Frame.event (chatChunk clock p.1 model (deltaFor p.1 p.2) JSON.null))).filterMap
        chunkFinish = [] := by
  induction l generalizing k with
  | nil => rfl
  | cons t rest ih =>
    simp only [List.enumFrom_cons, List.map_cons, List.filterMap_cons, chunkFinish_chatChunk,
      ih (k + 1)]

theorem filterMap_chunkRole_enumFrom_succ (clock : Clock) (model : String) (l : List String)
    (k : Nat) :
    ((l.enumFrom (k + 1)).map (fun p =>
      Frame.event (chatChunk clock p.1 model (deltaFor p.1 p.2) JSON.null))).filterMap
        chunkRole = [] := by
  induction l generalizing k with
  | nil => rfl
  | cons t rest ih =>
    simp only [List.enumFrom_cons, List.map_cons, List.filterMap_cons, chunkRole_chatChunk,
      Nat.succ_ne_zero, if_false, ih (k + 1)]

theorem filterMap_chunkRole_enum (clock : Clock) (model : String) (l : List String) :
    (l.enum.map (fun p =>
      Frame.event (chatChunk clock p.1 model (deltaFor p.1 p.2) JSON.null))).filterMap
        chunkRole = if l = [] then [] else ["assistant"] := by
  cases l with
  | nil => rfl
  | cons t rest =>
    simp only [List.enum, List.enumFrom_cons, List.map_cons, List.filterMap_cons,
      chunkRole_chatChunk, if_true, Nat.zero_add, filterMap_chunkRole_enumFrom_succ,
      List.cons_ne_nil, if_false]

/-- C11: for tokens `t1..tn` the streaming branch of `handleChatCompletions`
writes exactly `n` chunk events whose delta content is `t1, ..., tn` in that
order and whose `finish_reason` is null, the role marker `assistant` being in
the first of them and in no other frame; then exactly one event with an empty
delta and `finish_reason` equal to `stop`; then the sentinel `data: [DONE]` as
the final frame. The concatenation of the delta contents is the concatenation
of the tokens. -/
theorem handleChatCompletionsStream_delta (clock : Clock) (model : String)
    (tokens : List String) :
    handleChatCompletionsStream clock model tokens =
      tokens.enum.map (fun p =>
        Frame.event (chatChunk clock p.1 model (deltaFor p.1 p.2) JSON.null)) ++
      [Frame.event (chatChunk clock tokens.length model [] (JSON.str "stop")),
        Frame.literal "data: [DONE]\n\n"] ∧
    (handleChatCompletionsStream clock model tokens).length = tokens.length + 2 ∧
    (∀ (k : Nat) (t : String), tokens[k]? = some t →
      ∃ f, (handleChatCompletionsStream clock model tokens)[k]? = some f ∧
        chunkContent f = some t ∧ chunkFinish f = none ∧
        (chunkRole f = some "assistant" ↔ k = 0)) ∧
    (∃ f, (handleChatCompletionsStream clock model tokens)[tokens.length]? = some f ∧
      chunkDelta f = some [] ∧ chunkFinish f = some "stop") ∧
    (handleChatCompletionsStream clock model tokens)[tokens.length + 1]? =
      some (Frame.literal "data: [DONE]\n\n") ∧
    (handleChatCompletionsStream clock model tokens).getLast? =
      some (Frame.literal "data: [DONE]\n\n") ∧
    (handleChatCompletionsStream clock model tokens).filterMap chunkContent = tokens ∧
    join ((handleChatCompletionsStream clock model tokens).filterMap chunkContent) "" =
      join tokens "" ∧
    (handleChatCompletionsStream clock model tokens).filterMap chunkRole =
      (if tokens = [] then [] else ["assistant"]) ∧
    (handleChatCompletionsStream clock model tokens).filterMap chunkFinish = ["stop"] := by
  have heq := handleChatCompletionsStream_eq clock model tokens
  have hcontent : (handleChatCompletionsStream clock model tokens).filterMap chunkContent =
      tokens := by
    rw [heq, List.filterMap_append, List.enum, filterMap_chunkContent_enumFrom]
    simp only [List.filterMap_cons, List.filterMap_nil]
    have h1 : chunkContent
        (Frame.event (chatChunk clock tokens.length model [] (JSON.str "stop"))) = none := rfl
    have h2 : chunkContent (Frame.literal "data: [DONE]\n\n") = none := rfl
    simp [h1, h2]
  refine ⟨heq, ?_, ?_, ?_, ?_, ?_, hcontent, ?_, ?_, ?_⟩
  · rw [heq]; simp
  · intro k t hk
    have hlt : k < tokens.length := by
      rcases Nat.lt_or_ge k tokens.length with h | h
      · exact h
      · rw [List.getElem?_eq_none h] at hk; cases hk
    refine ⟨Frame.event (chatChunk clock k model (deltaFor k t) JSON.null), ?_,
      chunkContent_chatChunk clock k model t, rfl, ?_⟩
    · rw [heq, List.getElem?_append_left (by simpa using hlt)]
      simp [List.getElem?_enum, hk]
    · rw [chunkRole_chatChunk]
      by_cases h0 : k = 0 <;> simp [h0]
  · refine ⟨Frame.event (chatChunk clock tokens.length model [] (JSON.str "stop")), ?_, rfl, rfl⟩
    rw [heq, List.getElem?_append_right (by simp)]
    simp
  · rw [heq, List.getElem?_append_right (by simp)]
    simp
  · rw [heq]; simp
  · rw [hcontent]
  · rw [heq, List.filterMap_append, filterMap_chunkRole_enum]
    have h1 : chunkRole
        (Frame.event (chatChunk clock tokens.length model [] (JSON.str "stop"))) = none := rfl
    have h2 : chunkRole (Frame.literal "data: [DONE]\n\n") = none := rfl
    simp [h1, h2]
  · rw [heq, List.filterMap_append, List.enum, filterMap_chunkFinish_enumFrom]
    have h1 : chunkFinish
        (Frame.event (chatChunk clock tokens.length model [] (JSON.str "stop"))) =
          some "stop" := rfl
    have h2 : chunkFinish (Frame.literal "data: [DONE]\n\n") = none := rfl
    simp [h1, h2]

/-- The tokens `A`, `B`, `C`: the second event carries `B`, no stop and no role. -/
theorem handleChatCompletionsStream_delta_witness :
    ∃ f, (handleChatCompletionsStream sampleClock "llama3" ["A", "B", "C"])[1]? = some f ∧
      chunkContent f = some "B" ∧ chunkFinish f = none ∧ chunkRole f ≠ some "assistant" := by
  obtain ⟨f, h0, h1, h2, h3⟩ :=
    (handleChatCompletionsStream_delta sampleClock "llama3" ["A", "B", "C"]).2.2.1 1 "B" rfl
  exact ⟨f, h0, h1, h2, fun h => absurd (h3.mp h) (by decide)⟩

theorem afterFirst_append (sep : Char) (pre post : List Char) (h : sep ∉ pre) :
    afterFirst sep (pre ++ sep :: post) = some post := by
  induction pre with
  | nil => simp [afterFirst]
  | cons c cs ih =>
    have hc : c ≠ sep := fun e => h (by simp [e])
    have hcs : sep ∉ cs := fun hm => h (List.mem_cons_of_mem _ hm)
    simp [afterFirst, hc, ih hcs]

theorem exists_first_split (sep : Char) (l : List Char) (h : sep ∈ l) :
    ∃ pre post, l = pre ++ sep :: post ∧ sep ∉ pre := by
  induction l with
  | nil => cases h
  | cons c cs ih =>
    by_cases hc : c = sep
    · exact ⟨[], cs, by simp [hc], by simp⟩
    · have hmem : sep ∈ cs := by
        rcases List.mem_cons.mp h with h' | h'
        · exact absurd h'.symm hc
        · exact h'
      obtain ⟨pre, post, hl, hpre⟩ := ih hmem
      refine ⟨c :: pre, post, by simp [hl], ?_⟩
      intro hm
      rcases List.mem_cons.mp hm with h' | h'
      · exact hc h'.symm
      · exact hpre h'

/-- C12: a source that begins with `data:` and contains a comma resolves
successfully to exactly the characters after its first comma, whatever they
are, without any fetch: the result is the same for every state of the network,
so resolving the source again gives the same payload. -/
theorem maybeFetchRemoteImageToB64_data (httpGet : String → Except String String) (u : String)
    (hdata : hasPrefix u "data:" = true) (hcomma : ',' ∈ u.data) :
    (∃ pre post, u.data = pre ++ ',' :: post ∧ ',' ∉ pre ∧
      maybeFetchRemoteImageToB64 httpGet u = .ok (String.mk post)) ∧
    (∀ pre post : List Char, u.data = pre ++ ',' :: post → ',' ∉ pre →
      maybeFetchRemoteImageToB64 httpGet u = .ok (String.mk post)) ∧
    (∀ httpGet2 : String → Except String String,
      maybeFetchRemoteImageToB64 httpGet2 u = maybeFetchRemoteImageToB64 httpGet u) := by
  have hres : ∀ pre post : List Char, u.data = pre ++ ',' :: post → ',' ∉ pre →
      maybeFetchRemoteImageToB64 httpGet u = .ok (String.mk post) := by
    intro pre post hl hpre
    simp [maybeFetchRemoteImageToB64, hdata, hl, afterFirst_append ',' pre post hpre]
  obtain ⟨pre, post, hl, hpre⟩ := exists_first_split ',' u.data hcomma
  refine ⟨⟨pre, post, hl, hpre, hres pre post hl hpre⟩, hres, ?_⟩
  intro httpGet2
  simp [maybeFetchRemoteImageToB64, hdata]

/-- A data URI whose payload holds commas and a trailing blank keeps them. -/
theorem maybeFetchRemoteImageToB64_data_witness :
    maybeFetchRemoteImageToB64 sampleWorld.httpGet "data:image/png;base64,AA,BB, " =
      .ok "AA,BB, " :=
  (maybeFetchRemoteImageToB64_data sampleWorld.httpGet "data:image/png;base64,AA,BB, "
    (by decide) (by decide)).2.1 "data:image/png;base64".data "AA,BB, ".data
    (by decide) (by decide)

theorem isB64Char_iff (c : Char) : isB64Char c = true ↔ IsB64Or c := by
  simp [isB64Char, IsB64Or, or_assoc]

theorem b64RegexpMatch_iff (s : String) :
    b64RegexpMatch s = true ↔ (s ≠ "" ∧ ∀ c ∈ s.data, IsB64Or c) := by
  have hne : s ≠ "" ↔ s.data ≠ [] := by
    constructor
    · intro h hd
      apply h
      exact String.ext hd
    · intro h hs
      apply h
      rw [hs]
  simp only [b64RegexpMatch, Bool.and_eq_true, Bool.not_eq_true', List.isEmpty_eq_false,
    List.all_eq_true, isB64Char_iff, hne]

/-- C13: a source that begins with none of `data:`, `http://`, `https://`
resolves successfully exactly when its whitespace-trimmed form is non-empty and
made only of `A-Z`, `a-z`, `0-9`, `+`, `/`, `=`, CR and LF; the payload is then
the whole source, untrimmed; in every other case the result is the error
`not URL or b64` and no payload. -/
theorem maybeFetchRemoteImageToB64_raw (httpGet : String → Except String String) (u : String)
    (hdata : hasPrefix u "data:" = false) (hhttp : hasPrefix u "http://" = false)
    (hhttps : hasPrefix u "https://" = false) :
    ((∃ payload, maybeFetchRemoteImageToB64 httpGet u = .ok payload) ↔
      (trimSpace u ≠ "" ∧ ∀ c ∈ (trimSpace u).data, IsB64Or c)) ∧
    ((trimSpace u ≠ "" ∧ ∀ c ∈ (trimSpace u).data, IsB64Or c) →
      maybeFetchRemoteImageToB64 httpGet u = .ok u) ∧
    (¬ (trimSpace u ≠ "" ∧ ∀ c ∈ (trimSpace u).data, IsB64Or c) →
      maybeFetchRemoteImageToB64 httpGet u = .error "not URL or b64") := by
  have hyes : (trimSpace u ≠ "" ∧ ∀ c ∈ (trimSpace u).data, IsB64Or c) →
      maybeFetchRemoteImageToB64 httpGet u = .ok u := by
    intro h
    have hm : b64RegexpMatch (trimSpace u) = true := (b64RegexpMatch_iff _).mpr h
    simp [maybeFetchRemoteImageToB64, hdata, hhttp, hhttps, hm]
  have hno : ¬ (trimSpace u ≠ "" ∧ ∀ c ∈ (trimSpace u).data, IsB64Or c) →
      maybeFetchRemoteImageToB64 httpGet u = .error "not URL or b64" := by
    intro h
    have hm : b64RegexpMatch (trimSpace u) = false := by
      cases hb : b64RegexpMatch (trimSpace u) with
      | false => rfl
      | true => exact absurd ((b64RegexpMatch_iff _).mp hb) h
    simp [maybeFetchRemoteImageToB64, hdata, hhttp, hhttps, hm]
  refine ⟨⟨?_, fun h => ⟨u, hyes h⟩⟩, hyes, hno⟩
  rintro ⟨payload, hp⟩
  by_contra hc
  rw [hno hc] at hp
  cases hp

/-- A raw payload with surrounding blanks and an inner line break is accepted
and returned as it came. -/
theorem maybeFetchRemoteImageToB64_raw_witness :
    maybeFetchRemoteImageToB64 sampleWorld.httpGet " QUJD\r\nRA== " = .ok " QUJD\r\nRA== " :=
  (maybeFetchRemoteImageToB64_raw sampleWorld.httpGet " QUJD\r\nRA== "
    (by decide) (by decide) (by decide)).2.1 ⟨by decide, by decide⟩

theorem turnsLoop_eq (entries : List JSON) (msgs : List ChatMessage) :
    turnsLoop msgs entries = msgs ++ entries.filterMap turnMessage := by
  induction entries generalizing msgs with
  | nil => simp [turnsLoop]
  | cons t rest ih =>
    cases t <;> simp [turnsLoop, turnMessage, ih]

theorem JMap.get_filter_ne (m : JMap) (key other : String) (h : other ≠ key) :
    JMap.get (m.filter (fun kv => decide (kv.1 ≠ key))) other = JMap.get m other := by
  induction m with
  | nil => rfl
  | cons kv rest ih =>
    obtain ⟨k, x⟩ := kv
    by_cases hkk : k = key
    · have hko : ¬ k = other := fun e => h (e.symm.trans hkk)
      have hf : decide ((k, x).1 ≠ key) = false := by simp [hkk]
      rw [List.filter_cons, hf]
      simp only [Bool.false_eq_true, if_false, ih]
      simp [JMap.get, hko]
    · have hf : decide ((k, x).1 ≠ key) = true := by simp [hkk]
      rw [List.filter_cons, hf]
      simp only [if_true, JMap.get, ih]

theorem JMap.get_set_ne (m : JMap) (key other : String) (v : JSON) (h : other ≠ key) :
    JMap.get (JMap.set m key v) other = JMap.get m other := by
  have hk : ¬ key = other := fun e => h e.symm
  rw [JMap.set, JMap.get, if_neg hk]
  exact JMap.get_filter_ne m key other h

/-- C14 (as stated, refuted): with an `input` key that holds a plain string and
a `messages` key that holds a list, both present, the result comes from
`messages` and changes with it. -/
theorem responsesToMessages_counterexample :
    (JMap.get (sampleStringInputBody "user") "input").isSome = true ∧
    (JMap.get (sampleStringInputBody "user") "messages").isSome = true ∧
    (responsesToMessages (sampleStringInputBody "user")).map ChatMessage.Role = ["user"] ∧
    (responsesToMessages (sampleStringInputBody "system")).map ChatMessage.Role = ["system"] := by
  decide

/-- C14 (amended): when the `input` key holds a list, `responsesToMessages`
returns the role and content of the entries of `input` that are objects, in
order, and nothing else of the body matters: assigning any value to `messages`
leaves the result unchanged. -/
theorem responsesToMessages_input (body : JMap) (input : List JSON)
    (hinput : JMap.getList body "input" = some input) :
    responsesToMessages body = input.filterMap turnMessage ∧
    (∀ v : JSON, responsesToMessages (JMap.set body "messages" v) = responsesToMessages body) ∧
    (∀ body2 : JMap, JMap.getList body2 "input" = some input →
      responsesToMessages body2 = responsesToMessages body) := by
  have hres : ∀ b : JMap, JMap.getList b "input" = some input →
      responsesToMessages b = input.filterMap turnMessage := by
    intro b hb
    simp [responsesToMessages, hb, turnsLoop_eq]
  refine ⟨hres body hinput, ?_, ?_⟩
  · intro v
    have hset : JMap.getList (JMap.set body "messages" v) "input" = some input := by
      rw [JMap.getList, JMap.get_set_ne body "messages" "input" v (by decide)]
      exact hinput
    rw [hres _ hset, hres body hinput]
  · intro body2 h2
    rw [hres body2 h2, hres body hinput]

/-- A list `input` of two turns around a stray entry, next to a `messages` list:
the roles are those of `input`. -/
theorem responsesToMessages_input_witness :
    (responsesToMessages sampleBothBody).map ChatMessage.Role = ["system", "user"] := by
  have h := (responsesToMessages_input sampleBothBody
    [JSON.obj [("role", JSON.str "system"), ("content", JSON.str "be brief")],
      JSON.str "stray", JSON.obj [("role", JSON.str "user"), ("content", JSON.str "hi")]] rfl).1
  rw [h]
  decide

theorem dropWhile_pad (p : Char → Bool) (pad l : List Char) (hpad : ∀ c ∈ pad, p c = true) :
    (pad ++ l).dropWhile p = l.dropWhile p := by
  induction pad with
  | nil => rfl
  | cons c cs ih =>
    have hc : p c = true := hpad c (List.mem_cons_self _ _)
    simp [List.dropWhile_cons, hc, ih (fun x hx => hpad x (List.mem_cons_of_mem _ hx))]

theorem dropWhile_head (p : Char → Bool) (l : List Char) (x : Char) (h : l.head? = some x)
    (hx : p x = false) : l.dropWhile p = l := by
  cases l with
  | nil => rfl
  | cons y ys =>
    simp only [List.head?_cons, Option.some.injEq] at h
    subst h
    simp [List.dropWhile_cons, hx]

theorem trim_padded (pad1 b pad3 : List Char) (x y : Char)
    (h1 : ∀ c ∈ pad1, isSpace c = true) (h3 : ∀ c ∈ pad3, isSpace c = true)
    (hx : b.head? = some x) (hxs : isSpace x = false)
    (hy : b.getLast? = some y) (hys : isSpace y = false) :
    (((pad1 ++ (b ++ pad3)).dropWhile isSpace).reverse.dropWhile isSpace).reverse = b := by
  have hfront : (pad1 ++ (b ++ pad3)).dropWhile isSpace = b ++ pad3 := by
    rw [dropWhile_pad isSpace pad1 _ h1]
    exact dropWhile_head isSpace _ x (by simp [hx]) hxs
  have hback : (pad3.reverse ++ b.reverse).dropWhile isSpace = b.reverse := by
    rw [dropWhile_pad isSpace pad3.reverse _ (fun c hc => h3 c (List.mem_reverse.mp hc))]
    exact dropWhile_head isSpace _ y (by simp [hy]) hys
  rw [hfront, List.reverse_append, hback, List.reverse_reverse]

theorem trimSpace_padded (s : String) (pad1 b pad3 : List Char) (x y : Char)
    (hs : s.data = pad1 ++ (b ++ pad3))
    (h1 : ∀ c ∈ pad1, isSpace c = true) (h3 : ∀ c ∈ pad3, isSpace c = true)
    (hx : b.head? = some x) (hxs : isSpace x = false)
    (hy : b.getLast? = some y) (hys : isSpace y = false) :
    trimSpace s = String.mk b := by
  rw [trimSpace, hs, trim_padded pad1 b pad3 x y h1 h3 hx hxs hy hys]

theorem trimDataPrefix_carries (line body : String) (hobj : IsObjectText body)
    (hline : CarriesText line body) : trimDataPrefix line = body := by
  obtain ⟨hopen, hclose⟩ := hobj
  obtain ⟨pad1, pad2, pad3, h1, h2, h3, hform⟩ := hline
  have hbrace : isSpace '\x7b' = false := by decide
  have hclosing : isSpace '\x7d' = false := by decide
  have hd : isSpace 'd' = false := by decide
  have hbody : String.mk body.data = body := rfl
  have hne : body ≠ "" := by
    intro he
    rw [he] at hopen
    cases hopen
  rcases hform with hbare | hpre
  · have htrim : trimSpace line = body :=
      (trimSpace_padded line pad1 body.data pad3 _ _ hbare h1 h3 hopen hbrace hclose
        hclosing).trans hbody
    have hnp : hasPrefix body "data:" = false := by
      cases hb : body.data with
      | nil => rw [hb] at hopen; cases hopen
      | cons z zs =>
        rw [hb] at hopen
        simp only [List.head?_cons, Option.some.injEq] at hopen
        subst hopen
        simp only [hasPrefix, hb]
        rfl
    simp [trimDataPrefix, htrim, hne, hnp]
  · have hlast : ("data:".data ++ (pad2 ++ body.data)).getLast? = some '\x7d' := by
      rw [List.getLast?_append, List.getLast?_append, hclose]
      rfl
    have hform2 : line.data = pad1 ++ (("data:".data ++ (pad2 ++ body.data)) ++ pad3) := by
      rw [hpre]; simp [List.append_assoc]
    have htrim : trimSpace line = String.mk ("data:".data ++ (pad2 ++ body.data)) :=
      trimSpace_padded line pad1 _ pad3 'd' _ hform2 h1 h3 rfl hd hlast hclosing
    have hne2 : String.mk ("data:".data ++ (pad2 ++ body.data)) ≠ "" := by
      intro he
      have := congrArg String.data he
      simp at this
    have hp : hasPrefix (String.mk ("data:".data ++ (pad2 ++ body.data))) "data:" = true := by
      simp only [hasPrefix]
      exact List.isPrefixOf_iff_prefix.mpr (List.prefix_append _ _)
    have hdrop : (String.mk ("data:".data ++ (pad2 ++ body.data))).data.drop 5 =
        pad2 ++ (body.data ++ []) := by
      simp only [List.append_nil]
      rfl
    have hinner : trimSpace (String.mk (pad2 ++ (body.data ++ []))) = body :=
      (trimSpace_padded _ pad2 body.data [] _ _ rfl h2 (by simp) hopen hbrace hclose
        hclosing).trans hbody
    simp only [trimDataPrefix, htrim, hne2, if_false, hp, if_true, hdrop, hinner]

theorem getBool_done_iff (data : JMap) :
    JMap.getBool data "done" = some true ↔ isDone data = true := by
  unfold JMap.getBool isDone
  cases JMap.get data "done" with
  | none => simp
  | some v =>
    cases v with
    | bool b => cases b <;> simp
    | _ => simp

theorem getString_eq (m : JMap) (key : String) :
    (JMap.getString m key).getD "" =
      match JMap.get m key with
      | some (JSON.str s) => s
      | _ => "" := by
  unfold JMap.getString
  cases JMap.get m key with
  | none => rfl
  | some v => cases v <;> rfl

theorem messageContent_eq (data : JMap) :
    messageContent data =
      match JMap.getMap data "message" with
      | some msg => (JMap.getString msg "content").getD ""
      | none => "" := by
  unfold messageContent JMap.getMap
  cases JMap.get data "message" with
  | none => rfl
  | some v =>
    cases v with
    | obj msg => exact (getString_eq msg "content").symm
    | _ => rfl

theorem deltaOf_eq_extractedText (data : JMap) : deltaOf data = extractedText data := by
  have hmsg := messageContent_eq data
  have hresp : responseField data = (JMap.getString data "response").getD "" :=
    (getString_eq data "response").symm
  unfold deltaOf extractedText
  rw [hmsg, hresp]
  cases hm : JMap.getMap data "message" with
  | none => cases hr : JMap.getString data "response" <;> simp [hr]
  | some msg =>
    cases hc : JMap.getString msg "content" with
    | none => cases hr : JMap.getString data "response" <;> simp [hc, hr]
    | some s =>
      by_cases hs : s = ""
      · cases hr : JMap.getString data "response" <;> simp [hc, hr, hs]
      · cases hr : JMap.getString data "response" <;> simp [hc, hr, hs]

theorem streamLoop_carried (unmarshal : String → Option JMap) (scanErr : Option String)
    (lines : List String) (objs : List JMap)
    (hparse : List.Forall₂ (fun line obj =>
      ∃ body, IsObjectText body ∧ CarriesText line body ∧ unmarshal body = some obj)
      lines objs) :
    streamLoop unmarshal scanErr lines =
      ((objs.takeWhile (fun o => !isDone o)).map extractedText).filter
        (fun t => decide (t ≠ "")) ++ streamEnd scanErr := by
  induction hparse with
  | nil => simp [streamLoop]
  | @cons line obj lines objs h _ ih =>
    obtain ⟨body, hobj, hline, hun⟩ := h
    have htrim : trimDataPrefix line = body := trimDataPrefix_carries line body hobj hline
    have hne : body ≠ "" := by
      intro he
      rw [he] at hobj
      exact absurd hobj.1 (by decide)
    rw [streamLoop]
    simp only [htrim, hne, if_false, hun]
    by_cases hd : isDone obj = true
    · have hg : JMap.getBool obj "done" = some true := (getBool_done_iff obj).mpr hd
      simp [hg, hd, List.takeWhile_cons]
    · have hg : ¬ JMap.getBool obj "done" = some true := fun hg => hd ((getBool_done_iff obj).mp hg)
      have hd' : isDone obj = false := by simpa using hd
      by_cases ht : extractedText obj = ""
      · simp [hg, hd', ht, deltaOf_eq_extractedText, List.takeWhile_cons, List.filter_cons, ih]
      · simp [hg, hd', ht, deltaOf_eq_extractedText, List.takeWhile_cons, List.filter_cons, ih]

/-- C8 (as stated, refuted): a stream of lines that each parse as a JSON object,
the second one longer than the scanner accepts, yields the token of the first
line and then an error token, which is the extracted text of no line. -/
theorem StreamChat_read_failure_counterexample :
    (∃ body, IsObjectText body ∧
      CarriesText "\x7b\"message\":\x7b\"content\":\"Hello\"\x7d\x7d" body ∧
      sampleOverlongClient.unmarshal body = some (contentLine "Hello")) ∧
    StreamChat sampleOverlongClient [⟨"user", "hi"⟩] "llama3" =
      ["Hello", "\n[Ollama streaming error: bufio.Scanner: token too long]\n"] ∧
    StreamChat sampleOverlongClient [⟨"user", "hi"⟩] "llama3" ≠
      (([contentLine "Hello"].takeWhile (fun o => !isDone o)).map extractedText).filter
        (fun t => decide (t ≠ "")) :=
  ⟨⟨"\x7b\"message\":\x7b\"content\":\"Hello\"\x7d\x7d", by decide,
      ⟨[], [], [], by decide, by decide, by decide, Or.inl (by decide)⟩, rfl⟩,
    by decide, by decide⟩

/-- C8 (amended): when the request goes through and every line the scanner
yields carries, bare or after a `data:` prefix and with optional white space
around, the text of a JSON object that decodes, the tokens of `StreamChat` are
the non-empty extracted texts (nested message content when not empty, else the
top-level response) of the lines before the first one whose `done` flag is
true, in order, followed by one error token exactly when the scanner reports a
read failure; read without failure they are exactly those texts, and neither
the done line nor any line after it yields a token. -/
theorem StreamChat_tokens (c : Client) (messages : List Message) (model : String)
    (resp : Response) (objs : List JMap)
    (hreq : c.chatRequest messages model c.NumCtx true = .ok resp)
    (hstatus : resp.StatusCode < 400)
    (hparse : List.Forall₂ (fun line obj =>
      ∃ body, IsObjectText body ∧ CarriesText line body ∧ c.unmarshal body = some obj)
      resp.lines objs) :
    StreamChat c messages model =
      ((objs.takeWhile (fun o => !isDone o)).map extractedText).filter
        (fun t => decide (t ≠ "")) ++
      (match resp.scanErr with
        | none => []
        | some e => ["\n[Ollama streaming error: " ++ e ++ "]\n"]) ∧
    (resp.scanErr = none →
      StreamChat c messages model =
        ((objs.takeWhile (fun o => !isDone o)).map extractedText).filter
          (fun t => decide (t ≠ ""))) ∧
    (resp.scanErr = none → ∀ (pre post : List JMap) (d : JMap), objs = pre ++ d :: post →
      (∀ o ∈ pre, isDone o = false) → isDone d = true →
      StreamChat c messages model =
        (pre.map extractedText).filter (fun t => decide (t ≠ ""))) := by
  have hs : ¬ resp.StatusCode ≥ 400 := by omega
  have hmain : StreamChat c messages model =
      ((objs.takeWhile (fun o => !isDone o)).map extractedText).filter
        (fun t => decide (t ≠ "")) ++ streamEnd resp.scanErr := by
    rw [StreamChat, hreq]
    simp only [hs, if_false]
    exact streamLoop_carried c.unmarshal resp.scanErr resp.lines objs hparse
  have hnone : resp.scanErr = none →
      StreamChat c messages model =
        ((objs.takeWhile (fun o => !isDone o)).map extractedText).filter
          (fun t => decide (t ≠ "")) := by
    intro hread
    rw [hmain, hread]
    simp [streamEnd]
  refine ⟨?_, hnone, ?_⟩
  · rw [hmain]
    cases resp.scanErr <;> rfl
  · intro hread pre post d hobjs hpre hd
    rw [hnone hread, hobjs]
    have htw : (pre ++ d :: post).takeWhile (fun o => !isDone o) = pre := by
      clear hobjs
      induction pre with
      | nil => simp [List.takeWhile_cons, hd]
      | cons o rest ih =>
        have ho : isDone o = false := hpre o (List.mem_cons_self _ _)
        simp [List.takeWhile_cons, ho, ih (fun x hx => hpre x (List.mem_cons_of_mem _ hx))]
    rw [htw]

/-- The example of the specification, and a stream with a padded `data:` line,
a prefixed completion line and a content line after it: both yield `Hello` and
` world`. -/
theorem StreamChat_tokens_witness :
    StreamChat (sampleStreamClient sampleStreamLines) [⟨"user", "hi"⟩] "llama3" =
      ["Hello", " world"] ∧
    StreamChat (sampleStreamClient sampleFramedLines) [⟨"user", "hi"⟩] "llama3" =
      ["Hello", " world"] :=
  ⟨((StreamChat_tokens (sampleStreamClient sampleStreamLines) [⟨"user", "hi"⟩] "llama3"
      { StatusCode := 200, bodyText := "", decoded := .error "", lines := sampleStreamLines,
        scanErr := none }
      [contentLine "Hello", contentLine " world", [("done", JSON.bool true)]]
      rfl (by decide)
      (List.Forall₂.cons
        ⟨"\x7b\"message\":\x7b\"content\":\"Hello\"\x7d\x7d", by decide,
          ⟨[], [], [], by decide, by decide, by decide, Or.inl (by decide)⟩, rfl⟩
        (List.Forall₂.cons
          ⟨"\x7b\"message\":\x7b\"content\":\" world\"\x7d\x7d", by decide,
            ⟨[], [], [], by decide, by decide, by decide, Or.inl (by decide)⟩, rfl⟩
          (List.Forall₂.cons
            ⟨"\x7b\"done\":true\x7d", by decide,
              ⟨[], [], [], by decide, by decide, by decide, Or.inl (by decide)⟩, rfl⟩
            List.Forall₂.nil)))).2.1 rfl).trans (by decide),
    ((StreamChat_tokens (sampleStreamClient sampleFramedLines) [⟨"user", "hi"⟩] "llama3"
      { StatusCode := 200, bodyText := "", decoded := .error "", lines := sampleFramedLines,
        scanErr := none }
      [contentLine "Hello", contentLine " world", [("done", JSON.bool true)],
        [("response", JSON.str "!")]]
      rfl (by decide)
      (List.Forall₂.cons
        ⟨"\x7b\"message\":\x7b\"content\":\"Hello\"\x7d\x7d", by decide,
          ⟨[' ', ' '], [' '], ['\r'], by decide, by decide, by decide, Or.inr (by decide)⟩, rfl⟩
        (List.Forall₂.cons
          ⟨"\x7b\"message\":\x7b\"content\":\" world\"\x7d\x7d", by decide,
            ⟨[], [], [], by decide, by decide, by decide, Or.inl (by decide)⟩, rfl⟩
          (List.Forall₂.cons
            ⟨"\x7b\"done\":true\x7d", by decide,
              ⟨[], [], [], by decide, by decide, by decide, Or.inr (by decide)⟩, rfl⟩
            (List.Forall₂.cons
              ⟨"\x7b\"response\":\"!\"\x7d", by decide,
                ⟨[], [], [], by decide, by decide, by decide, Or.inl (by decide)⟩, rfl⟩
              List.Forall₂.nil))))).2.1 rfl).trans (by decide)⟩

end LlamaMux
